import Mathlib

set_option maxRecDepth 20000

/-!
Verification of the memex TUI (src/src/tui.rs, src/src/embed.rs, src/src/config.rs)
against its natural-language specification.

Rust `String` values are modelled as `List Char` (Rust iterates `chars()`;
`String::len` is the UTF-8 byte count, modelled by `byteLen`).  `f32` scores are
modelled as `ℚ` (exact; NaN does not arise in the properties considered).
Modules of the repository that are not under src/ (types.rs, index.rs, ...) are
modelled from the spec where needed; each such definition carries a doc comment
starting with "Modelled from the spec:".
-/

namespace Memex

/-- Constant from tui.rs: `RESULT_LIMIT`. -/
def RESULT_LIMIT : Nat := 200

/-- Constant from tui.rs: `DETAIL_TAIL_LINES`. -/
def DETAIL_TAIL_LINES : Nat := 10

/-- Constant from tui.rs: `MAX_MESSAGE_CHARS`. -/
def MAX_MESSAGE_CHARS : Nat := 4000

/-- Constant from tui.rs: `CONTEXT_AROUND_MATCH`. -/
def CONTEXT_AROUND_MATCH : Nat := 1

/-- Constant from tui.rs: `RECENT_SESSIONS_LIMIT`. -/
def RECENT_SESSIONS_LIMIT : Nat := 200

/-- Constant from tui.rs: `RECENT_RECORDS_MULTIPLIER`. -/
def RECENT_RECORDS_MULTIPLIER : Nat := 50

/-- Rust `str::trim`: remove whitespace from both ends. -/
def trimChars (l : List Char) : List Char :=
  ((l.dropWhile Char.isWhitespace).reverse.dropWhile Char.isWhitespace).reverse

/-- The character loop of `summarize` (tui.rs).  State: remaining input,
`out`, `count`, `last_space`; returns the built string and the `truncated`
flag.  The Rust loop checks `count >= max` at the top of each iteration and
sets `truncated` before breaking. -/
def summarizeLoop (max : Nat) : List Char → List Char → Nat → Bool → (List Char × Bool)
  | [], out, _, _ => (out, false)
  | c :: rest, out, count, lastSpace =>
    if max ≤ count then (out, true)
    else if c.isWhitespace then
      if out.isEmpty || lastSpace then summarizeLoop max rest out count lastSpace
      else summarizeLoop max rest (out ++ [' ']) (count + 1) true
    else summarizeLoop max rest (out ++ [c]) (count + 1) false

/-- `summarize` from tui.rs: collapse whitespace, cap at `max` characters,
and when the scan was cut short with `max >= 3`, keep `max - 3` characters
and append `"..."`; both exits trim the result. -/
def summarize (text : List Char) (max : Nat) : List Char :=
  if max = 0 then []
  else
    let p := summarizeLoop max text [] 0 false
    if p.2 ∧ 3 ≤ max then trimChars (p.1.take (max - 3) ++ ['.', '.', '.'])
    else trimChars p.1

/-- Boolean "no two adjacent whitespace characters" predicate. -/
def noWsRuns : List Char → Bool
  | [] => true
  | [_] => true
  | a :: b :: rest => (!(a.isWhitespace && b.isWhitespace)) && noWsRuns (b :: rest)

/-- The pair constraint underlying `noWsRuns`. -/
def wsP (a b : Char) : Prop := ¬(a.isWhitespace = true ∧ b.isWhitespace = true)

lemma noWsRuns_iff_chain (l : List Char) : noWsRuns l = true ↔ l.Chain' wsP := by
  induction l with
  | nil => simp [noWsRuns]
  | cons a t ih =>
    cases t with
    | nil => simp [noWsRuns]
    | cons b t' =>
      rw [List.chain'_cons, ← ih]
      simp only [noWsRuns, Bool.and_eq_true, Bool.not_eq_true']
      constructor
      · rintro ⟨h1, h2⟩
        refine ⟨?_, h2⟩
        rintro ⟨ha, hb⟩
        rw [ha, hb] at h1
        simp at h1
      · rintro ⟨h1, h2⟩
        refine ⟨?_, h2⟩
        cases hws : a.isWhitespace
        · simp
        · cases hbw : b.isWhitespace
          · simp
          · exact absurd ⟨hws, hbw⟩ h1

lemma head?_dropWhile (p : Char → Bool) (l : List Char) {c : Char}
    (h : (l.dropWhile p).head? = some c) : p c = false := by
  induction l with
  | nil => simp at h
  | cons a t ih =>
    rw [List.dropWhile_cons] at h
    by_cases hpa : p a = true
    · exact ih (by simpa [hpa] using h)
    · simp only [hpa, if_neg, Bool.false_eq_true, if_false, List.head?_cons,
        Option.some.injEq] at h
      subst h
      simpa using hpa

lemma getLast?_dropWhile_of_ne_nil (p : Char → Bool) (l : List Char)
    (h : l.dropWhile p ≠ []) : (l.dropWhile p).getLast? = l.getLast? := by
  induction l with
  | nil => simp at h
  | cons a t ih =>
    rw [List.dropWhile_cons]
    by_cases hpa : p a = true
    · rw [List.dropWhile_cons, if_pos hpa] at h
      have ht : t ≠ [] := by
        intro he
        simp [he] at h
      obtain ⟨b, t', rfl⟩ := List.exists_cons_of_ne_nil ht
      rw [if_pos hpa, ih h, List.getLast?_cons_cons]
    · rw [if_neg hpa]

lemma trimChars_isInfix (l : List Char) : trimChars l <:+: l := by
  have h1 : (l.dropWhile Char.isWhitespace) <:+ l := List.dropWhile_suffix _
  have h2 : ((l.dropWhile Char.isWhitespace).reverse.dropWhile Char.isWhitespace) <:+
      (l.dropWhile Char.isWhitespace).reverse := List.dropWhile_suffix _
  have h3 : trimChars l <+: (l.dropWhile Char.isWhitespace) := by
    have := List.reverse_prefix.mpr h2
    simpa [trimChars] using this
  exact List.IsInfix.trans ( List.IsPrefix.isInfix h3) ( List.IsSuffix.isInfix h1)

lemma trimChars_sublist (l : List Char) : (trimChars l).Sublist l :=
  List.IsInfix.sublist (trimChars_isInfix l)

lemma trimChars_length_le (l : List Char) : (trimChars l).length ≤ l.length :=
  List.Sublist.length_le (trimChars_sublist l)

lemma trimChars_getLast? (l : List Char) {c : Char}
    (h : (trimChars l).getLast? = some c) : c.isWhitespace = false := by
  unfold trimChars at h
  rw [List.getLast?_reverse] at h
  exact head?_dropWhile _ _ h

lemma trimChars_head? (l : List Char) {c : Char}
    (h : (trimChars l).head? = some c) : c.isWhitespace = false := by
  unfold trimChars at h
  rw [List.head?_reverse] at h
  set Z := (l.dropWhile Char.isWhitespace).reverse.dropWhile Char.isWhitespace with hZ
  rcases hz : Z with _ | ⟨z, Z'⟩
  · rw [hz] at h
    simp at h
  · have hne : Z ≠ [] := by rw [hz]; exact List.cons_ne_nil _ _
    rw [hZ] at hne
    have := getLast?_dropWhile_of_ne_nil Char.isWhitespace
      (l.dropWhile Char.isWhitespace).reverse hne
    rw [← hZ] at this
    rw [this, List.getLast?_reverse] at h
    exact head?_dropWhile _ _ h

lemma trimChars_eq_self {l : List Char}
    (h1 : ∀ c, l.head? = some c → c.isWhitespace = false)
    (h2 : ∀ c, l.getLast? = some c → c.isWhitespace = false) : trimChars l = l := by
  cases l with
  | nil => rfl
  | cons a t =>
    have ha : a.isWhitespace = false := h1 a rfl
    unfold trimChars
    rw [List.dropWhile_cons, if_neg (by simp [ha])]
    rcases hr : (a :: t).reverse with _ | ⟨b, r'⟩
    · exact absurd hr (by simp)
    · have hb : (a :: t).getLast? = some b := by
        rw [← List.head?_reverse, hr, List.head?_cons]
      have hbws : b.isWhitespace = false := h2 b hb
      rw [List.dropWhile_cons, if_neg (by simp [hbws]), ← hr, List.reverse_reverse]

lemma trimChars_idem (l : List Char) : trimChars (trimChars l) = trimChars l :=
  trimChars_eq_self (fun _ h => trimChars_head? l h) (fun _ h => trimChars_getLast? l h)

lemma trimChars_nil : trimChars [] = [] := rfl

lemma summarizeLoop_length (max : Nat) (text : List Char) :
    ∀ (out : List Char) (count : Nat) (ls : Bool), out.length = count → count ≤ max →
      ((summarizeLoop max text out count ls).1).length ≤ max := by
  induction text with
  | nil => intro out count ls h1 h2; simpa [summarizeLoop, h1] using h2
  | cons c rest ih =>
    intro out count ls h1 h2
    rw [summarizeLoop]
    by_cases hm : max ≤ count
    · rw [if_pos hm]
      simpa [h1] using h2
    · have hlt : count < max := Nat.lt_of_not_le hm
      rw [if_neg hm]
      by_cases hws : c.isWhitespace = true
      · rw [if_pos hws]
        by_cases hsk : (out.isEmpty || ls) = true
        · rw [if_pos hsk]; exact ih out count ls h1 h2
        · rw [if_neg hsk]
          exact ih (out ++ [' ']) (count + 1) true (by simp [h1]) hlt
      · rw [if_neg hws]
        exact ih (out ++ [c]) (count + 1) false (by simp [h1]) hlt

lemma summarizeLoop_truncated_length (max : Nat) (text : List Char) :
    ∀ (out : List Char) (count : Nat) (ls : Bool), out.length = count →
      (summarizeLoop max text out count ls).2 = true →
      max ≤ ((summarizeLoop max text out count ls).1).length := by
  induction text with
  | nil => intro out count ls h1 h2; simp [summarizeLoop] at h2
  | cons c rest ih =>
    intro out count ls h1 h2
    rw [summarizeLoop] at h2 ⊢
    by_cases hm : max ≤ count
    · rw [if_pos hm]
      simpa [h1] using hm
    · rw [if_neg hm] at h2 ⊢
      by_cases hws : c.isWhitespace = true
      · rw [if_pos hws] at h2 ⊢
        by_cases hsk : (out.isEmpty || ls) = true
        · rw [if_pos hsk] at h2 ⊢; exact ih out count ls h1 h2
        · rw [if_neg hsk] at h2 ⊢
          exact ih (out ++ [' ']) (count + 1) true (by simp [h1]) h2
      · rw [if_neg hws] at h2 ⊢
        exact ih (out ++ [c]) (count + 1) false (by simp [h1]) h2

lemma summarizeLoop_struct (max : Nat) (text : List Char) :
    ∀ (out : List Char) (count : Nat) (ls : Bool),
      (∀ c, out.head? = some c → c.isWhitespace = false) →
      (∀ c ∈ out, c.isWhitespace = true → c = ' ') →
      out.Chain' wsP →
      (ls = false → ∀ c, out.getLast? = some c → c.isWhitespace = false) →
      (∀ c, ((summarizeLoop max text out count ls).1).head? = some c →
          c.isWhitespace = false) ∧
      (∀ c ∈ (summarizeLoop max text out count ls).1, c.isWhitespace = true → c = ' ') ∧
      ((summarizeLoop max text out count ls).1).Chain' wsP := by
  induction text with
  | nil =>
    intro out count ls h1 h2 h3 _
    exact ⟨by simpa [summarizeLoop] using h1, by simpa [summarizeLoop] using h2,
      by simpa [summarizeLoop] using h3⟩
  | cons c rest ih =>
    intro out count ls h1 h2 h3 h4
    rw [summarizeLoop]
    by_cases hm : max ≤ count
    · simp only [hm, if_pos]
      exact ⟨h1, h2, h3⟩
    · rw [if_neg hm]
      by_cases hws : c.isWhitespace = true
      · rw [if_pos hws]
        by_cases hsk : (out.isEmpty || ls) = true
        · rw [if_pos hsk]; exact ih out count ls h1 h2 h3 h4
        · rw [if_neg hsk]
          have hout : out ≠ [] := by
            intro he
            simp [he] at hsk
          have hls : ls = false := by
            cases ls
            · rfl
            · simp at hsk
          apply ih (out ++ [' ']) (count + 1) true
          · intro d hd
            rw [List.head?_append] at hd
            rcases ho : out.head? with _ | o
            · exact absurd ho (by simpa using hout)
            · rw [ho] at hd
              simp only [Option.or_some, Option.some.injEq] at hd
              exact hd ▸ h1 o ho
          · intro d hd hdw
            rcases List.mem_append.mp hd with hd1 | hd2
            · exact h2 d hd1 hdw
            · simpa using hd2
          · rw [List.chain'_append]
            refine ⟨h3, List.chain'_singleton _, ?_⟩
            intro x hx y hy
            simp only [List.head?_cons, Option.mem_def, Option.some.injEq] at hy
            subst hy
            intro ⟨hxw, _⟩
            exact absurd hxw (by simp [h4 hls x hx])
          · intro hcon; cases hcon
      · rw [if_neg hws]
        have hcws : c.isWhitespace = false := by simpa using hws
        apply ih (out ++ [c]) (count + 1) false
        · intro d hd
          rw [List.head?_append] at hd
          rcases ho : out.head? with _ | o
          · rw [ho] at hd
            simp only [Option.none_or, List.head?_cons, Option.some.injEq] at hd
            exact hd ▸ hcws
          · rw [ho] at hd
            simp only [Option.or_some, Option.some.injEq] at hd
            exact hd ▸ h1 o ho
        · intro d hd hdw
          rcases List.mem_append.mp hd with hd1 | hd2
          · exact h2 d hd1 hdw
          · simp only [List.mem_singleton] at hd2
            exact absurd (hd2 ▸ hdw) (by simp [hcws])
        · rw [List.chain'_append]
          refine ⟨h3, List.chain'_singleton _, ?_⟩
          intro x _ y hy
          simp only [List.head?_cons, Option.mem_def, Option.some.injEq] at hy
          subst hy
          intro ⟨_, hyw⟩
          exact absurd hyw (by simp [hcws])
        · intro _ d hd
          rw [List.getLast?_concat] at hd
          cases hd
          exact hcws

lemma summarizeOut_head (text : List Char) (max : Nat) {c : Char}
    (h : ((summarizeLoop max text [] 0 false).1).head? = some c) :
    c.isWhitespace = false :=
  (summarizeLoop_struct max text [] 0 false (by simp) (by simp) List.chain'_nil
    (by simp)).1 c h

lemma summarizeOut_mem (text : List Char) (max : Nat) {c : Char}
    (h : c ∈ (summarizeLoop max text [] 0 false).1) (hw : c.isWhitespace = true) :
    c = ' ' :=
  (summarizeLoop_struct max text [] 0 false (by simp) (by simp) List.chain'_nil
    (by simp)).2.1 c h hw

lemma summarizeOut_chain (text : List Char) (max : Nat) :
    ((summarizeLoop max text [] 0 false).1).Chain' wsP :=
  (summarizeLoop_struct max text [] 0 false (by simp) (by simp) List.chain'_nil
    (by simp)).2.2

lemma summarize_truncated_eq (text : List Char) (max : Nat) (h3 : 3 ≤ max)
    (hf : (summarizeLoop max text [] 0 false).2 = true) :
    summarize text max =
      (summarizeLoop max text [] 0 false).1.take (max - 3) ++ ['.', '.', '.'] := by
  have hm0 : max ≠ 0 := by omega
  rw [summarize, if_neg hm0, if_pos ⟨hf, h3⟩]
  have hlen : max ≤ ((summarizeLoop max text [] 0 false).1).length :=
    summarizeLoop_truncated_length max text [] 0 false rfl hf
  apply trimChars_eq_self
  · intro c hc
    rcases hk : max - 3 with _ | k
    · rw [hk] at hc
      simp only [List.take_zero, List.nil_append, List.head?_cons,
        Option.some.injEq] at hc
      subst hc
      decide
    · rcases ho : (summarizeLoop max text [] 0 false).1 with _ | ⟨o, out'⟩
      · rw [ho] at hlen
        simp at hlen
        omega
      · rw [ho, hk] at hc
        simp only [List.take_succ_cons, List.cons_append, List.head?_cons,
          Option.some.injEq] at hc
        subst hc
        exact summarizeOut_head text max (by rw [ho]; rfl)
  · intro c hc
    rw [List.getLast?_append] at hc
    simp only [List.getLast?_cons_cons, List.getLast?_singleton,
      Option.or_some, Option.some.injEq] at hc
    subst hc
    decide

/-- C4/C9 helper: the summary always fits in `max` characters. -/
lemma summarize_length_le (text : List Char) (max : Nat) :
    (summarize text max).length ≤ max := by
  by_cases hm0 : max = 0
  · simp [summarize, hm0]
  · rw [summarize, if_neg hm0]
    by_cases hb : (summarizeLoop max text [] 0 false).2 = true ∧ 3 ≤ max
    · rw [if_pos hb]
      calc (trimChars ((summarizeLoop max text [] 0 false).1.take (max - 3)
              ++ ['.', '.', '.'])).length
          ≤ ((summarizeLoop max text [] 0 false).1.take (max - 3)
              ++ ['.', '.', '.']).length := trimChars_length_le _
        _ ≤ (max - 3) + 3 := by
            rw [List.length_append]
            have h := List.length_take_le (max - 3) (summarizeLoop max text [] 0 false).1
            simp only [List.length_cons, List.length_nil]
            omega
        _ = max := by omega
    · rw [if_neg hb]
      calc (trimChars (summarizeLoop max text [] 0 false).1).length
          ≤ ((summarizeLoop max text [] 0 false).1).length := trimChars_length_le _
        _ ≤ max := summarizeLoop_length max text [] 0 false rfl (Nat.zero_le _)

/-- The claim's notion of "the input had to be truncated to fit within
`max`": after the whitespace normalization that `summarize` always applies
(collapse runs, drop leading whitespace, trim), the text does not fit in
`max` characters.  The normalized text is computed by running the character
loop with a budget that can never be hit. -/
def needsTruncation (text : List Char) (max : Nat) : Prop :=
  max < (trimChars (summarizeLoop (text.length + 1) text [] 0 false).1).length

instance (text : List Char) (max : Nat) : Decidable (needsTruncation text max) :=
  inferInstanceAs (Decidable (_ < _))

/-- C4 (corrected): `summarize(text, max)` returns at most `max` characters,
and whenever the character scan was cut short (the code's `truncated` flag)
with `max ≥ 3`, the result ends with `"..."`.  The converse direction of the
original claim is false (see the counterexample): a result may end in `"..."`
because the input text itself does, and for `max < 3` a truncated result
carries no ellipsis. -/
theorem summarize_bound_and_ellipsis (text : List Char) (max : Nat) :
    (summarize text max).length ≤ max ∧
    (3 ≤ max → (summarizeLoop max text [] 0 false).2 = true →
      ['.', '.', '.'] <:+ summarize text max) := by
  refine ⟨summarize_length_le text max, fun h3 hf => ?_⟩
  rw [summarize_truncated_eq text max h3 hf]
  exact ⟨_, rfl⟩

theorem summarize_bound_and_ellipsis_witness :
    3 ≤ 5 ∧ (summarizeLoop 5 "abcdefgh".data [] 0 false).2 = true ∧
    (summarize "abcdefgh".data 5).length ≤ 5 ∧
    ['.', '.', '.'] <:+ summarize "abcdefgh".data 5 :=
  ⟨by decide, by decide, (summarize_bound_and_ellipsis "abcdefgh".data 5).1,
    (summarize_bound_and_ellipsis "abcdefgh".data 5).2 (by decide) (by decide)⟩

/-- C4 counterexample: the original claim's "ends with `...` iff the input
had to be truncated" fails in both directions.  `summarize "abc..." 10`
returns the input unchanged, which ends with `"..."` although nothing was
truncated; `summarize "abcde" 2` truncates but (since `max < 3`) appends no
ellipsis. -/
theorem summarize_ellipsis_iff_cx :
    (['.', '.', '.'] <:+ summarize "abc...".data 10) ∧
    ¬ needsTruncation "abc...".data 10 ∧
    needsTruncation "abcde".data 2 ∧
    ¬ (['.', '.', '.'] <:+ summarize "abcde".data 2) := by
  refine ⟨⟨"abc".data, by decide⟩, by decide, by decide, by decide⟩

/-- C9 (confirmed): `summarize` collapses every whitespace run to a single
space (no two adjacent whitespace characters remain and every remaining
whitespace character is a plain space), drops leading whitespace and trims
the result (the output is a fixed point of trimming), and `max = 0` yields
the empty string. -/
theorem summarize_whitespace_normalization (text : List Char) (max : Nat) :
    summarize text 0 = [] ∧
    (∀ c ∈ summarize text max, c.isWhitespace = true → c = ' ') ∧
    noWsRuns (summarize text max) = true ∧
    trimChars (summarize text max) = summarize text max := by
  refine ⟨by simp [summarize], ?_, ?_, ?_⟩
  · intro c hc hw
    by_cases hm0 : max = 0
    · rw [summarize, if_pos hm0] at hc
      simp at hc
    · rw [summarize, if_neg hm0] at hc
      by_cases hb : (summarizeLoop max text [] 0 false).2 = true ∧ 3 ≤ max
      · rw [if_pos hb] at hc
        have hc2 := List.Sublist.subset (trimChars_sublist _) hc
        rcases List.mem_append.mp hc2 with hc3 | hc3
        · exact summarizeOut_mem text max
            (List.Sublist.subset ( List.take_sublist _ _) hc3) hw
        · have : c = '.' := by simpa using hc3
          subst this
          exact absurd hw (by decide)
      · rw [if_neg hb] at hc
        exact summarizeOut_mem text max
          (List.Sublist.subset (trimChars_sublist _) hc) hw
  · rw [noWsRuns_iff_chain]
    by_cases hm0 : max = 0
    · rw [summarize, if_pos hm0]
      exact List.chain'_nil
    · rw [summarize, if_neg hm0]
      by_cases hb : (summarizeLoop max text [] 0 false).2 = true ∧ 3 ≤ max
      · rw [if_pos hb]
        apply List.Chain'.infix ?_ (trimChars_isInfix _)
        rw [List.chain'_append]
        refine ⟨ List.Chain'.prefix (summarizeOut_chain text max)
          ( List.take_prefix _ _), by simp [List.chain'_cons, wsP], ?_⟩
        intro x _ y hy
        simp only [List.head?_cons, Option.mem_def, Option.some.injEq] at hy
        subst hy
        rintro ⟨_, hyw⟩
        exact absurd hyw (by decide)
      · rw [if_neg hb]
        exact List.Chain'.infix (summarizeOut_chain text max) (trimChars_isInfix _)
  · by_cases hm0 : max = 0
    · simp [summarize, hm0, trimChars_nil]
    · rw [summarize, if_neg hm0]
      by_cases hb : (summarizeLoop max text [] 0 false).2 = true ∧ 3 ≤ max
      · rw [if_pos hb]
        exact trimChars_idem _
      · rw [if_neg hb]
        exact trimChars_idem _

theorem summarize_whitespace_normalization_witness :
    summarize "x".data 0 = [] ∧
    (' ' ∈ summarize "a \t b".data 10 ∧ ' ' = ' ') ∧
    noWsRuns (summarize "a \t b".data 10) = true ∧
    trimChars (summarize "a \t b".data 10) = summarize "a \t b".data 10 :=
  ⟨(summarize_whitespace_normalization "x".data 0).1,
    ⟨by decide, (summarize_whitespace_normalization "a \t b".data 10).2.1 ' '
      (by decide) (by decide)⟩,
    (summarize_whitespace_normalization "a \t b".data 10).2.2.1,
    (summarize_whitespace_normalization "a \t b".data 10).2.2.2⟩

/-- Rust `String::len` — the UTF-8 byte count of the text. -/
def byteLen (l : List Char) : Nat := (l.map Char.utf8Size).sum

/-- The text shown for a record by `append_record` (tui.rs): texts whose
byte length exceeds `MAX_MESSAGE_CHARS` are replaced by their
`MAX_MESSAGE_CHARS`-character summary followed by `" …"`. -/
def displayedText (text : List Char) : List Char :=
  if MAX_MESSAGE_CHARS < byteLen text then
    summarize text MAX_MESSAGE_CHARS ++ [' ', '…']
  else text

lemma length_le_byteLen (l : List Char) : l.length ≤ byteLen l := by
  induction l with
  | nil => simp [byteLen]
  | cons c t ih =>
    have hc : 1 ≤ c.utf8Size := c.utf8Size_pos
    simp only [byteLen, List.map_cons, List.sum_cons, List.length_cons]
    have : t.length ≤ (t.map Char.utf8Size).sum := ih
    omega

/-- C5 (confirmed): every record emitted into the preview pane shows a text
that is truncated to at most `MAX_MESSAGE_CHARS = 4000` characters, with an
ellipsis appended exactly when truncation occurred. -/
theorem append_record_truncation (text : List Char) :
    (MAX_MESSAGE_CHARS < byteLen text →
      displayedText text = summarize text MAX_MESSAGE_CHARS ++ [' ', '…'] ∧
      (summarize text MAX_MESSAGE_CHARS).length ≤ MAX_MESSAGE_CHARS) ∧
    (byteLen text ≤ MAX_MESSAGE_CHARS →
      displayedText text = text ∧ text.length ≤ MAX_MESSAGE_CHARS) := by
  constructor
  · intro h
    exact ⟨by rw [displayedText, if_pos h], summarize_length_le text _⟩
  · intro h
    refine ⟨by rw [displayedText, if_neg (by omega)], ?_⟩
    exact Nat.le_trans (length_le_byteLen text) h

/-- Fragment of Rust `char::is_alphanumeric` sufficient for this
development: ASCII alphanumerics plus the Latin-1 letters U+00C0..U+00FF
without the two operators × (U+00D7) and ÷ (U+00F7).  The source calls the
Unicode-complete std function; only this fragment is exercised here. -/
def rustIsAlphanumeric (c : Char) : Bool :=
  c.isAlphanum ||
    (0xC0 ≤ c.toNat && c.toNat ≤ 0xFF && c.toNat ≠ 0xD7 && c.toNat ≠ 0xF7)

/-- Fragment of Rust `char::to_lowercase` (the simple one-to-one case
mapping) covering ASCII and Latin-1; identity elsewhere. -/
def rustToLowerChar (c : Char) : Char :=
  if 0x41 ≤ c.toNat ∧ c.toNat ≤ 0x5A then Char.ofNat (c.toNat + 0x20)
  else if 0xC0 ≤ c.toNat ∧ c.toNat ≤ 0xDE ∧ c.toNat ≠ 0xD7 then
    Char.ofNat (c.toNat + 0x20)
  else c

/-- Rust `str::to_lowercase` on the modelled fragment. -/
def toLowerStr (l : List Char) : List Char := l.map rustToLowerChar

/-- Rust `str::split_whitespace` helper; `acc` holds the current word
reversed. -/
def splitWsAux : List Char → List Char → List (List Char)
  | [], acc => if acc = [] then [] else [acc.reverse]
  | c :: rest, acc =>
    if c.isWhitespace then
      if acc = [] then splitWsAux rest [] else acc.reverse :: splitWsAux rest []
    else splitWsAux rest (c :: acc)

/-- Rust `str::split_whitespace`. -/
def splitWs (l : List Char) : List (List Char) := splitWsAux l []

/-- `part.trim_matches(|c| !c.is_alphanumeric())` from `build_matchers`
(tui.rs): strip non-alphanumeric characters from both ends. -/
def trimNonAlnum (l : List Char) : List Char :=
  ((l.dropWhile (fun c => !rustIsAlphanumeric c)).reverse.dropWhile
    (fun c => !rustIsAlphanumeric c)).reverse

/-- One iteration of the token loop of `build_matchers` (tui.rs).  The
source keeps a `seen` hash set and a `terms` vector, pushing exactly the
keys newly inserted into `seen`; the two therefore hold the same elements
and are modelled by the single list `terms`. -/
def buildMatcherStep (terms : List (List Char)) (part : List Char) :
    List (List Char) :=
  if byteLen (trimNonAlnum part) < 2 then terms
  else if toLowerStr (trimNonAlnum part) ∈ terms then terms
  else terms ++ [toLowerStr (trimNonAlnum part)]

/-- `build_matchers` (tui.rs), up to the regex construction: the list of
lowercased literal patterns.  The regex built from a pattern is a
case-insensitive literal matcher, modelled by `matchesLit`. -/
def buildMatcherTerms (query : List Char) : List (List Char) :=
  (splitWs query).foldl buildMatcherStep []

/-- The claim's reading of the token-length filter: drop tokens shorter
than 2 *characters*.  The source instead compares the UTF-8 *byte* length
(`cleaned.len() < 2`). -/
def buildMatcherTermsCharLen (query : List Char) : List (List Char) :=
  (splitWs query).foldl (fun terms part =>
    if (trimNonAlnum part).length < 2 then terms
    else if toLowerStr (trimNonAlnum part) ∈ terms then terms
    else terms ++ [toLowerStr (trimNonAlnum part)]) []

/-- Substring test: some tail of `text` starts with `pat`. -/
def containsSub (pat text : List Char) : Bool :=
  (text.tails).any (fun t => pat.isPrefixOf t)

/-- A case-insensitive literal regex for the (lowercased) `term` matching
against `text`, modelled by substring search on the lowercased text. -/
def matchesLit (term text : List Char) : Bool := containsSub term (toLowerStr text)

/-- `matches_any` (tui.rs). -/
def matchesAny (text : List Char) (matchers : List (List Char)) : Bool :=
  matchers.any (fun m => matchesLit m text)

lemma buildMatcher_fold (parts : List (List Char)) :
    ∀ acc : List (List Char), acc.Nodup →
      (parts.foldl buildMatcherStep acc).Nodup ∧
      (∀ t, t ∈ parts.foldl buildMatcherStep acc ↔
        t ∈ acc ∨ ∃ part ∈ parts, 2 ≤ byteLen (trimNonAlnum part) ∧
          t = toLowerStr (trimNonAlnum part)) := by
  induction parts with
  | nil =>
    intro acc hacc
    refine ⟨hacc, fun t => ?_⟩
    simp
  | cons p rest ih =>
    intro acc hacc
    rw [List.foldl_cons]
    by_cases hb : byteLen (trimNonAlnum p) < 2
    · rw [show buildMatcherStep acc p = acc from by rw [buildMatcherStep, if_pos hb]]
      obtain ⟨hnd, hmem⟩ := ih acc hacc
      refine ⟨hnd, fun t => ?_⟩
      rw [hmem t]
      constructor
      · rintro (h | ⟨part, hp, h2, h3⟩)
        · exact Or.inl h
        · exact Or.inr ⟨part, List.mem_cons_of_mem _ hp, h2, h3⟩
      · rintro (h | ⟨part, hp, h2, h3⟩)
        · exact Or.inl h
        · rcases List.mem_cons.mp hp with rfl | hp'
          · omega
          · exact Or.inr ⟨part, hp', h2, h3⟩
    · by_cases hk : toLowerStr (trimNonAlnum p) ∈ acc
      · rw [show buildMatcherStep acc p = acc from by
          rw [buildMatcherStep, if_neg hb, if_pos hk]]
        obtain ⟨hnd, hmem⟩ := ih acc hacc
        refine ⟨hnd, fun t => ?_⟩
        rw [hmem t]
        constructor
        · rintro (h | ⟨part, hp, h2, h3⟩)
          · exact Or.inl h
          · exact Or.inr ⟨part, List.mem_cons_of_mem _ hp, h2, h3⟩
        · rintro (h | ⟨part, hp, h2, h3⟩)
          · exact Or.inl h
          · rcases List.mem_cons.mp hp with rfl | hp'
            · exact Or.inl (h3 ▸ hk)
            · exact Or.inr ⟨part, hp', h2, h3⟩
      · rw [show buildMatcherStep acc p = acc ++ [toLowerStr (trimNonAlnum p)] from by
          rw [buildMatcherStep, if_neg hb, if_neg hk]]
        have hacc' : (acc ++ [toLowerStr (trimNonAlnum p)]).Nodup := by
          simp [List.nodup_append, hacc, hk]
        obtain ⟨hnd, hmem⟩ := ih _ hacc'
        refine ⟨hnd, fun t => ?_⟩
        rw [hmem t]
        constructor
        · rintro (h | ⟨part, hp, h2, h3⟩)
          · rcases List.mem_append.mp h with h' | h'
            · exact Or.inl h'
            · refine Or.inr ⟨p, List.mem_cons_self _ _, by omega, by simpa using h'⟩
          · exact Or.inr ⟨part, List.mem_cons_of_mem _ hp, h2, h3⟩
        · rintro (h | ⟨part, hp, h2, h3⟩)
          · exact Or.inl (List.mem_append.mpr (Or.inl h))
          · rcases List.mem_cons.mp hp with rfl | hp'
            · exact Or.inl (List.mem_append.mpr (Or.inr (by simp [h3])))
            · exact Or.inr ⟨part, hp', h2, h3⟩

/-- C6 (corrected): `build_matchers` splits the query on whitespace, trims
non-alphanumeric characters from both ends of each token, drops tokens
whose UTF-8 **byte** length is shorter than 2 (the original claim said 2
*characters*; see the counterexample), and dedups by lowercased form; the
resulting matchers are case-insensitive literal matchers. -/
theorem build_matchers_amended (query : List Char) :
    (∀ t, t ∈ buildMatcherTerms query ↔
      ∃ part ∈ splitWs query, 2 ≤ byteLen (trimNonAlnum part) ∧
        t = toLowerStr (trimNonAlnum part)) ∧
    (buildMatcherTerms query).Nodup ∧
    (∀ t ∈ buildMatcherTerms query, ∀ text1 text2,
      toLowerStr text1 = toLowerStr text2 →
        matchesLit t text1 = matchesLit t text2) := by
  obtain ⟨hnd, hmem⟩ := buildMatcher_fold (splitWs query) [] List.nodup_nil
  refine ⟨fun t => ?_, hnd, fun t _ text1 text2 h => ?_⟩
  · rw [buildMatcherTerms, hmem t]
    simp
  · rw [matchesLit, matchesLit, h]

theorem build_matchers_amended_witness :
    "banana".data ∈ buildMatcherTerms "  baNAna?! x  ".data ∧
    (buildMatcherTerms "  baNAna?! x  ".data).Nodup ∧
    matchesLit "banana".data "HeLLo".data = matchesLit "banana".data "hello".data := by
  refine ⟨?_, (build_matchers_amended "  baNAna?! x  ".data).2.1, ?_⟩
  · rw [(build_matchers_amended "  baNAna?! x  ".data).1 "banana".data]
    exact ⟨"baNAna?!".data, by decide, by decide, by decide⟩
  · exact (build_matchers_amended "  baNAna?! x  ".data).2.2 "banana".data
      (by
        rw [(build_matchers_amended "  baNAna?! x  ".data).1 "banana".data]
        exact ⟨"baNAna?!".data, by decide, by decide, by decide⟩)
      "HeLLo".data "hello".data (by decide)

/-- C6 counterexample: the single-character token `é` has UTF-8 byte
length 2, so the source keeps it as a matcher even though the claim's
"tokens shorter than 2 characters are dropped" would discard it. -/
theorem build_matchers_charlen_cx :
    buildMatcherTerms ['é'] = [['é']] ∧
    buildMatcherTermsCharLen ['é'] = [] ∧
    (['é'] : List Char).length < 2 ∧ 2 ≤ byteLen ['é'] := by
  refine ⟨by decide, by decide, by decide, by decide⟩

theorem append_record_truncation_witness :
    MAX_MESSAGE_CHARS < byteLen (List.replicate 1001 '𝕩') ∧
    displayedText (List.replicate 1001 '𝕩') =
      summarize (List.replicate 1001 '𝕩') MAX_MESSAGE_CHARS ++ [' ', '…'] ∧
    (summarize (List.replicate 1001 '𝕩') MAX_MESSAGE_CHARS).length ≤
      MAX_MESSAGE_CHARS :=
  ⟨by decide,
    ((append_record_truncation (List.replicate 1001 '𝕩')).1 (by decide)).1,
    ((append_record_truncation (List.replicate 1001 '𝕩')).1 (by decide)).2⟩

/-- Modelled from the spec: types.rs is not under src/; §3 gives the
source's tagged variant {Claude, CodexSession, CodexHistory}. -/
inductive SourceKind
  | Claude
  | CodexSession
  | CodexHistory
deriving DecidableEq, Repr

/-- Modelled from the spec: the source filter carried by QueryOptions
(§6, `source ∈ {All, Claude, Codex}`); All is `Option.none` at use sites,
as in tui.rs `SourceChoice::as_filter`. -/
inductive SourceFilter
  | Claude
  | Codex
deriving DecidableEq, Repr

/-- Modelled from the spec: `SourceFilter::matches` — the Codex filter
accepts both codex variants. -/
def SourceFilter.matches : SourceFilter → SourceKind → Bool
  | .Claude, .Claude => true
  | .Codex, .CodexSession => true
  | .Codex, .CodexHistory => true
  | _, _ => false

/-- The Record shape (spec §3; exactly the fields tui.rs reads). -/
structure Record where
  doc_id : Nat
  session_id : List Char
  turn_id : Nat
  ts : Nat
  source : SourceKind
  source_path : List Char
  project : List Char
  role : List Char
  text : List Char
deriving DecidableEq, Repr

/-- `SessionSummary` (tui.rs). -/
structure SessionSummary where
  session_id : List Char
  project : List Char
  source : SourceKind
  last_ts : Nat
  hit_count : Nat
  top_score : ℚ
  snippet : List Char
  source_path : List Char
deriving DecidableEq, Repr

/-- The summary inserted by `or_insert` in `add_record_to_session`
(tui.rs). -/
def initSummary (score : ℚ) (r : Record) : SessionSummary :=
  { session_id := r.session_id
    project := r.project
    source := r.source
    last_ts := r.ts
    hit_count := 0
    top_score := score
    snippet := summarize r.text 160
    source_path := r.source_path }

/-- The mutations `add_record_to_session` applies to the (found or freshly
inserted) entry: bump `hit_count`, raise `last_ts`, and on `score >=
top_score` adopt the record's score, path and (when non-empty) snippet.
All conditions read the entry state before the update, as in the source. -/
def bumpSummary (e : SessionSummary) (score : ℚ) (r : Record) : SessionSummary :=
  { session_id := e.session_id
    project := e.project
    source := e.source
    last_ts := if e.last_ts < r.ts then r.ts else e.last_ts
    hit_count := e.hit_count + 1
    top_score := if e.top_score ≤ score then score else e.top_score
    snippet := if e.top_score ≤ score then
        (if summarize r.text 160 = [] then e.snippet else summarize r.text 160)
      else e.snippet
    source_path := if e.top_score ≤ score then r.source_path else e.source_path }

/-- `add_record_to_session` (tui.rs); the `HashMap` is modelled as an
association list in insertion order. -/
def addRecordToSession (m : List (List Char × SessionSummary)) (score : ℚ)
    (r : Record) : List (List Char × SessionSummary) :=
  match m with
  | [] => [(r.session_id, bumpSummary (initSummary score r) score r)]
  | (k, v) :: rest =>
    if k = r.session_id then (k, bumpSummary v score r) :: rest
    else (k, v) :: addRecordToSession rest score r

/-- Key lookup in the association-list session map. -/
def findSession : List (List Char × SessionSummary) → List Char →
    Option SessionSummary
  | [], _ => none
  | (k, v) :: rest, key => if k = key then some v else findSession rest key

/-- The comparator of `sessions_from_query` (tui.rs):
`b.top_score.partial_cmp(&a.top_score).then(b.last_ts.cmp(&a.last_ts))`
is not `Greater` — descending score, then descending timestamp. -/
def sessLe (a b : SessionSummary) : Prop :=
  b.top_score < a.top_score ∨ (b.top_score = a.top_score ∧ b.last_ts ≤ a.last_ts)

instance : DecidableRel sessLe := fun _ _ => inferInstanceAs (Decidable (_ ∨ _))

instance : IsTotal SessionSummary sessLe := by
  constructor
  intro a b
  rcases lt_trichotomy a.top_score b.top_score with h | h | h
  · exact Or.inr (Or.inl h)
  · rcases Nat.le_total b.last_ts a.last_ts with h2 | h2
    · exact Or.inl (Or.inr ⟨h.symm, h2⟩)
    · exact Or.inr (Or.inr ⟨h, h2⟩)
  · exact Or.inl (Or.inl h)

instance : IsTrans SessionSummary sessLe := by
  constructor
  rintro a b c (h1 | ⟨h1, h1'⟩) (h2 | ⟨h2, h2'⟩)
  · exact Or.inl (lt_trans h2 h1)
  · exact Or.inl (h2 ▸ h1)
  · exact Or.inl (h1 ▸ h2)
  · exact Or.inr ⟨h2.trans h1, h2'.trans h1'⟩

/-- `sessions_from_query` (tui.rs), taking the `(score, record)` list the
index search returned.  Rust's `sort_by` is a stable sort by a total
preorder, modelled by insertion sort with `sessLe`. -/
def sessionsFromQuery (results : List (ℚ × Record)) (limit : Nat) :
    List SessionSummary :=
  let m := results.foldl (fun m p => addRecordToSession m p.1 p.2) []
  let sorted := List.insertionSort sessLe (m.map Prod.snd)
  if limit < sorted.length then sorted.take limit else sorted

/-- The source filter test in `sessions_from_recent` (tui.rs): a record is
skipped when a filter is present and does not match. -/
def sourcePasses : Option SourceFilter → SourceKind → Bool
  | none, _ => true
  | some f, k => f.matches k

/-- The project filter test in `sessions_from_recent` (tui.rs). -/
def projectPasses : Option (List Char) → List Char → Bool
  | none, _ => true
  | some p, pr => pr = p

/-- The record loop of `sessions_from_recent` (tui.rs): apply both filters,
add to the session map, and stop as soon as `RECENT_SESSIONS_LIMIT`
sessions have been formed. -/
def recentLoop (source : Option SourceFilter) (project : Option (List Char)) :
    List Record → List (List Char × SessionSummary) →
      List (List Char × SessionSummary)
  | [], m => m
  | r :: rest, m =>
    if sourcePasses source r.source = false then recentLoop source project rest m
    else if projectPasses project r.project = false then
      recentLoop source project rest m
    else
      let m' := addRecordToSession m 0 r
      if RECENT_SESSIONS_LIMIT ≤ m'.length then m'
      else recentLoop source project rest m'

/-- The comparator of `sessions_from_recent` (tui.rs):
`b.last_ts.cmp(&a.last_ts)` is not `Greater` — newest first. -/
def tsLe (a b : SessionSummary) : Prop := b.last_ts ≤ a.last_ts

instance : DecidableRel tsLe := fun _ _ => inferInstanceAs (Decidable (_ ≤ _))

instance : IsTotal SessionSummary tsLe := ⟨fun a b => Nat.le_total b.last_ts a.last_ts⟩

instance : IsTrans SessionSummary tsLe := ⟨fun _ _ _ h1 h2 => Nat.le_trans h2 h1⟩

/-- The record budget of `sessions_from_recent` (tui.rs):
`(RECENT_SESSIONS_LIMIT * RECENT_RECORDS_MULTIPLIER).max(200)`. -/
def recentRecordLimit : Nat :=
  Nat.max (RECENT_SESSIONS_LIMIT * RECENT_RECORDS_MULTIPLIER) 200

/-- `sessions_from_recent` (tui.rs), taking the list of records that
`index.recent_records(recentRecordLimit)` returned. -/
def sessionsFromRecent (records : List Record) (source : Option SourceFilter)
    (project : Option (List Char)) : List SessionSummary :=
  List.insertionSort tsLe ((recentLoop source project records []).map Prod.snd)

lemma bumpSummary_session_id (e : SessionSummary) (score : ℚ) (r : Record) :
    (bumpSummary e score r).session_id = e.session_id := rfl

lemma findSession_addRecord (m : List (List Char × SessionSummary)) (score : ℚ)
    (r : Record) (k : List Char) :
    findSession (addRecordToSession m score r) k =
      if k = r.session_id then
        some (bumpSummary ((findSession m r.session_id).getD (initSummary score r))
          score r)
      else findSession m k := by
  induction m with
  | nil =>
    by_cases hk : k = r.session_id
    · subst hk
      simp [addRecordToSession, findSession]
    · rw [if_neg hk]
      simp only [addRecordToSession, findSession]
      rw [if_neg (fun h => hk h.symm)]
  | cons hd rest ih =>
    obtain ⟨k', v⟩ := hd
    rw [addRecordToSession]
    by_cases hk' : k' = r.session_id
    · subst hk'
      rw [if_pos rfl]
      by_cases hk : k = r.session_id
      · subst hk
        rw [if_pos rfl, findSession, if_pos rfl, findSession, if_pos rfl]
        rfl
      · rw [if_neg hk, findSession, if_neg (fun h => hk h.symm), findSession,
          if_neg (fun h => hk h.symm)]
    · rw [if_neg hk', findSession]
      by_cases hkk : k' = k
      · subst hkk
        rw [if_pos rfl, if_neg (fun h => hk' h), findSession, if_pos rfl]
      · rw [if_neg hkk, ih]
        by_cases hk : k = r.session_id
        · rw [if_pos hk, if_pos hk, findSession, if_neg hk']
        · rw [if_neg hk, if_neg hk, findSession, if_neg hkk]

lemma addRecord_keys (m : List (List Char × SessionSummary)) (score : ℚ)
    (r : Record) :
    (addRecordToSession m score r).map Prod.fst =
      if r.session_id ∈ m.map Prod.fst then m.map Prod.fst
      else m.map Prod.fst ++ [r.session_id] := by
  induction m with
  | nil => simp [addRecordToSession]
  | cons hd rest ih =>
    obtain ⟨k', v⟩ := hd
    rw [addRecordToSession]
    by_cases hk' : k' = r.session_id
    · subst hk'
      rw [if_pos rfl]
      simp only [List.map_cons]
      rw [if_pos (List.mem_cons_self _ _)]
    · rw [if_neg hk']
      simp only [List.map_cons, List.mem_cons]
      rw [ih]
      by_cases hmem : r.session_id ∈ rest.map Prod.fst
      · rw [if_pos hmem, if_pos (Or.inr hmem)]
      · rw [if_neg hmem, if_neg (by
          rintro (h | h)
          · exact hk' h.symm
          · exact hmem h)]
        simp

lemma addRecord_nodupKeys (m : List (List Char × SessionSummary)) (score : ℚ)
    (r : Record) (h : (m.map Prod.fst).Nodup) :
    ((addRecordToSession m score r).map Prod.fst).Nodup := by
  rw [addRecord_keys]
  by_cases hmem : r.session_id ∈ m.map Prod.fst
  · rw [if_pos hmem]; exact h
  · rw [if_neg hmem]
    simp [List.nodup_append, h, hmem]

lemma addRecord_keyInv (m : List (List Char × SessionSummary)) (score : ℚ)
    (r : Record) (h : ∀ p ∈ m, p.2.session_id = p.1) :
    ∀ p ∈ addRecordToSession m score r, p.2.session_id = p.1 := by
  induction m with
  | nil =>
    intro p hp
    simp only [addRecordToSession, List.mem_singleton] at hp
    subst hp
    rfl
  | cons hd rest ih =>
    obtain ⟨k', v⟩ := hd
    rw [addRecordToSession]
    by_cases hk' : k' = r.session_id
    · rw [if_pos hk']
      intro p hp
      rcases List.mem_cons.mp hp with rfl | hp'
      · exact h (k', v) (List.mem_cons_self _ _)
      · exact h p (List.mem_cons_of_mem _ hp')
    · rw [if_neg hk']
      intro p hp
      rcases List.mem_cons.mp hp with rfl | hp'
      · exact h (k', v) (List.mem_cons_self _ _)
      · exact ih (fun q hq => h q (List.mem_cons_of_mem _ hq)) p hp'

lemma addRecord_length_le (m : List (List Char × SessionSummary)) (score : ℚ)
    (r : Record) :
    (addRecordToSession m score r).length ≤ m.length + 1 := by
  have h := addRecord_keys m score r
  have h1 : ((addRecordToSession m score r).map Prod.fst).length =
      (addRecordToSession m score r).length := List.length_map _ _
  have h2 : (m.map Prod.fst).length = m.length := List.length_map _ _
  by_cases hmem : r.session_id ∈ m.map Prod.fst
  · rw [if_pos hmem] at h
    have := congrArg List.length h
    omega
  · rw [if_neg hmem] at h
    have := congrArg List.length h
    simp only [List.length_append, List.length_cons, List.length_nil] at this
    omega

lemma findSession_of_mem (m : List (List Char × SessionSummary))
    (hnd : (m.map Prod.fst).Nodup) {k : List Char} {v : SessionSummary}
    (h : (k, v) ∈ m) : findSession m k = some v := by
  induction m with
  | nil => simp at h
  | cons hd rest ih =>
    obtain ⟨k', v'⟩ := hd
    rcases List.mem_cons.mp h with heq | hmem
    · cases heq
      rw [findSession, if_pos rfl]
    · rw [findSession]
      by_cases hk : k' = k
      · subst hk
        exfalso
        simp only [List.map_cons, List.nodup_cons] at hnd
        exact hnd.1 (List.mem_map.mpr ⟨(k', v), hmem, rfl⟩)
      · rw [if_neg hk]
        simp only [List.map_cons, List.nodup_cons] at hnd
        exact ih hnd.2 hmem

/-- `sessions_from_query`'s per-key accumulation: the entry for a key is
the fold of `bumpSummary` over the key's records. -/
def sessionFoldOpt : Option SessionSummary → List (ℚ × Record) →
    Option SessionSummary
  | o, [] => o
  | o, p :: rest =>
    sessionFoldOpt (some (bumpSummary (o.getD (initSummary p.1 p.2)) p.1 p.2)) rest

/-- The chain of `bumpSummary` updates a session's records apply to its
entry. -/
def bumpFold : List (ℚ × Record) → SessionSummary → SessionSummary
  | [], e => e
  | p :: rest, e => bumpFold rest (bumpSummary e p.1 p.2)

lemma sessionFoldOpt_some (recs : List (ℚ × Record)) :
    ∀ e : SessionSummary, sessionFoldOpt (some e) recs = some (bumpFold recs e) := by
  induction recs with
  | nil => intro e; rfl
  | cons p rest ih => intro e; rw [sessionFoldOpt, bumpFold, ih]; rfl

lemma findSession_fold (results : List (ℚ × Record)) :
    ∀ (m : List (List Char × SessionSummary)) (k : List Char),
      findSession (results.foldl (fun m p => addRecordToSession m p.1 p.2) m) k =
        sessionFoldOpt (findSession m k)
          (results.filter (fun p => p.2.session_id = k)) := by
  induction results with
  | nil => intro m k; rfl
  | cons p rest ih =>
    intro m k
    rw [List.foldl_cons]
    by_cases hk : p.2.session_id = k
    · rw [List.filter_cons_of_pos (by simpa using hk)]
      rw [ih, sessionFoldOpt, findSession_addRecord, if_pos hk.symm, hk]
    · rw [List.filter_cons_of_neg (by simpa using hk)]
      rw [ih, findSession_addRecord, if_neg (fun h => hk h.symm)]

lemma bumpFold_session_id (recs : List (ℚ × Record)) :
    ∀ e : SessionSummary, (bumpFold recs e).session_id = e.session_id := by
  induction recs with
  | nil => intro e; rfl
  | cons p rest ih => intro e; rw [bumpFold, ih]; rfl

lemma bumpFold_hit_count (recs : List (ℚ × Record)) :
    ∀ e : SessionSummary, (bumpFold recs e).hit_count = e.hit_count + recs.length := by
  induction recs with
  | nil => intro e; simp [bumpFold]
  | cons p rest ih =>
    intro e
    rw [bumpFold, ih]
    simp only [List.length_cons]
    have h : (bumpSummary e p.1 p.2).hit_count = e.hit_count + 1 := rfl
    omega

lemma bumpSummary_last_ts_le (e : SessionSummary) (score : ℚ) (r : Record) :
    e.last_ts ≤ (bumpSummary e score r).last_ts := by
  show e.last_ts ≤ if e.last_ts < r.ts then r.ts else e.last_ts
  split <;> omega

lemma bumpSummary_ts_le (e : SessionSummary) (score : ℚ) (r : Record) :
    r.ts ≤ (bumpSummary e score r).last_ts := by
  show r.ts ≤ if e.last_ts < r.ts then r.ts else e.last_ts
  split <;> omega

lemma bumpFold_last_ts_le (recs : List (ℚ × Record)) :
    ∀ e : SessionSummary, e.last_ts ≤ (bumpFold recs e).last_ts := by
  induction recs with
  | nil => intro e; exact le_refl _
  | cons p rest ih =>
    intro e
    rw [bumpFold]
    exact Nat.le_trans (bumpSummary_last_ts_le e p.1 p.2) (ih _)

lemma bumpFold_last_ts_mem (recs : List (ℚ × Record)) :
    ∀ e : SessionSummary, ∀ p ∈ recs, p.2.ts ≤ (bumpFold recs e).last_ts := by
  induction recs with
  | nil => intro e p hp; simp at hp
  | cons q rest ih =>
    intro e p hp
    rw [bumpFold]
    rcases List.mem_cons.mp hp with rfl | hp'
    · exact Nat.le_trans (bumpSummary_ts_le e p.1 p.2) (bumpFold_last_ts_le rest _)
    · exact ih _ p hp'

lemma bumpFold_last_ts_eq (recs : List (ℚ × Record)) :
    ∀ e : SessionSummary, (bumpFold recs e).last_ts = e.last_ts ∨
      ∃ p ∈ recs, p.2.ts = (bumpFold recs e).last_ts := by
  induction recs with
  | nil => intro e; exact Or.inl rfl
  | cons q rest ih =>
    intro e
    rw [bumpFold]
    rcases ih (bumpSummary e q.1 q.2) with h | ⟨p, hp, hpe⟩
    · rw [h]
      have hb : (bumpSummary e q.1 q.2).last_ts =
          if e.last_ts < q.2.ts then q.2.ts else e.last_ts := rfl
      rw [hb]
      split
      · exact Or.inr ⟨q, List.mem_cons_self _ _, rfl⟩
      · exact Or.inl rfl
    · exact Or.inr ⟨p, List.mem_cons_of_mem _ hp, hpe⟩

lemma bumpSummary_top_le (e : SessionSummary) (score : ℚ) (r : Record) :
    e.top_score ≤ (bumpSummary e score r).top_score := by
  show e.top_score ≤ if e.top_score ≤ score then score else e.top_score
  split
  · assumption
  · exact le_refl _

lemma bumpSummary_score_le (e : SessionSummary) (score : ℚ) (r : Record) :
    score ≤ (bumpSummary e score r).top_score := by
  show score ≤ if e.top_score ≤ score then score else e.top_score
  split
  · exact le_refl _
  · exact le_of_lt (lt_of_not_le (by assumption))

lemma bumpFold_top_le (recs : List (ℚ × Record)) :
    ∀ e : SessionSummary, e.top_score ≤ (bumpFold recs e).top_score := by
  induction recs with
  | nil => intro e; exact le_refl _
  | cons p rest ih =>
    intro e
    rw [bumpFold]
    exact le_trans (bumpSummary_top_le e p.1 p.2) (ih _)

lemma bumpFold_top_mem (recs : List (ℚ × Record)) :
    ∀ e : SessionSummary, ∀ p ∈ recs, p.1 ≤ (bumpFold recs e).top_score := by
  induction recs with
  | nil => intro e p hp; simp at hp
  | cons q rest ih =>
    intro e p hp
    rw [bumpFold]
    rcases List.mem_cons.mp hp with rfl | hp'
    · exact le_trans (bumpSummary_score_le e p.1 p.2) (bumpFold_top_le rest _)
    · exact ih _ p hp'

lemma bumpFold_path_snippet (recs : List (ℚ × Record)) :
    ∀ e : SessionSummary,
      ((bumpFold recs e).top_score = e.top_score ∧
        (bumpFold recs e).source_path = e.source_path ∧
        (bumpFold recs e).snippet = e.snippet) ∨
      ∃ p ∈ recs, p.1 = (bumpFold recs e).top_score ∧
        (bumpFold recs e).source_path = p.2.source_path ∧
        (summarize p.2.text 160 ≠ [] →
          (bumpFold recs e).snippet = summarize p.2.text 160) := by
  induction recs with
  | nil => intro e; exact Or.inl ⟨rfl, rfl, rfl⟩
  | cons q rest ih =>
    intro e
    rw [bumpFold]
    have htop : (bumpSummary e q.1 q.2).top_score =
        if e.top_score ≤ q.1 then q.1 else e.top_score := rfl
    have hpath : (bumpSummary e q.1 q.2).source_path =
        if e.top_score ≤ q.1 then q.2.source_path else e.source_path := rfl
    have hsnip : (bumpSummary e q.1 q.2).snippet =
        if e.top_score ≤ q.1 then
          (if summarize q.2.text 160 = [] then e.snippet else summarize q.2.text 160)
        else e.snippet := rfl
    rcases ih (bumpSummary e q.1 q.2) with ⟨h1, h2, h3⟩ | ⟨p, hp, h1, h2, h3⟩
    · by_cases he : e.top_score ≤ q.1
      · refine Or.inr ⟨q, List.mem_cons_self _ _, ?_, ?_, ?_⟩
        · rw [h1, htop, if_pos he]
        · rw [h2, hpath, if_pos he]
        · intro hs
          rw [h3, hsnip, if_pos he, if_neg hs]
      · refine Or.inl ⟨?_, ?_, ?_⟩
        · rw [h1, htop, if_neg he]
        · rw [h2, hpath, if_neg he]
        · rw [h3, hsnip, if_neg he]
    · exact Or.inr ⟨p, List.mem_cons_of_mem _ hp, h1, h2, h3⟩

lemma bumpFold_snippet_origin (recs : List (ℚ × Record)) :
    ∀ e : SessionSummary, (bumpFold recs e).snippet = e.snippet ∨
      ∃ p ∈ recs, (bumpFold recs e).snippet = summarize p.2.text 160 := by
  induction recs with
  | nil => intro e; exact Or.inl rfl
  | cons q rest ih =>
    intro e
    rw [bumpFold]
    have hsnip : (bumpSummary e q.1 q.2).snippet =
        if e.top_score ≤ q.1 then
          (if summarize q.2.text 160 = [] then e.snippet else summarize q.2.text 160)
        else e.snippet := rfl
    rcases ih (bumpSummary e q.1 q.2) with h | ⟨p, hp, hpe⟩
    · rw [h, hsnip]
      by_cases he : e.top_score ≤ q.1
      · rw [if_pos he]
        by_cases hs : summarize q.2.text 160 = []
        · rw [if_pos hs]
          exact Or.inl rfl
        · rw [if_neg hs]
          exact Or.inr ⟨q, List.mem_cons_self _ _, rfl⟩
      · rw [if_neg he]
        exact Or.inl rfl
    · exact Or.inr ⟨p, List.mem_cons_of_mem _ hp, hpe⟩

lemma fold_nodupKeys (results : List (ℚ × Record)) :
    ∀ m : List (List Char × SessionSummary), ((m.map Prod.fst).Nodup) →
      (((results.foldl (fun m p => addRecordToSession m p.1 p.2) m).map
        Prod.fst).Nodup) := by
  induction results with
  | nil => intro m h; exact h
  | cons p rest ih =>
    intro m h
    rw [List.foldl_cons]
    exact ih _ (addRecord_nodupKeys m p.1 p.2 h)

lemma fold_keyInv (results : List (ℚ × Record)) :
    ∀ m : List (List Char × SessionSummary), (∀ p ∈ m, p.2.session_id = p.1) →
      ∀ p ∈ results.foldl (fun m p => addRecordToSession m p.1 p.2) m,
        p.2.session_id = p.1 := by
  induction results with
  | nil => intro m h; exact h
  | cons q rest ih =>
    intro m h
    rw [List.foldl_cons]
    exact ih _ (addRecord_keyInv m q.1 q.2 h)

lemma initBump_fields (score : ℚ) (r : Record) :
    (bumpSummary (initSummary score r) score r).session_id = r.session_id ∧
    (bumpSummary (initSummary score r) score r).hit_count = 1 ∧
    (bumpSummary (initSummary score r) score r).last_ts = r.ts ∧
    (bumpSummary (initSummary score r) score r).top_score = score ∧
    (bumpSummary (initSummary score r) score r).source_path = r.source_path ∧
    (bumpSummary (initSummary score r) score r).snippet = summarize r.text 160 := by
  refine ⟨rfl, rfl, ?_, ?_, ?_, ?_⟩
  · show (if (initSummary score r).last_ts < r.ts then r.ts
      else (initSummary score r).last_ts) = r.ts
    split <;> rfl
  · show (if (initSummary score r).top_score ≤ score then score
      else (initSummary score r).top_score) = score
    split <;> rfl
  · show (if (initSummary score r).top_score ≤ score then r.source_path
      else (initSummary score r).source_path) = r.source_path
    have h : (initSummary score r).top_score ≤ score := le_of_eq rfl
    rw [if_pos h]
  · show (if (initSummary score r).top_score ≤ score then
        (if summarize r.text 160 = [] then (initSummary score r).snippet
          else summarize r.text 160)
      else (initSummary score r).snippet) = summarize r.text 160
    have h : (initSummary score r).top_score ≤ score := le_of_eq rfl
    rw [if_pos h]
    split <;> rfl

/-- C1 (corrected): grouping scored records by session, every produced
summary has `hit_count` the number of grouped records, `top_score` /
`last_ts` the maxima over them, and `source_path` from a top-scoring
record, whose 160-character summary also becomes the snippet whenever that
summary is non-empty (the original claim's unconditional "snippet from the
top-scoring record" fails when that summary is empty — see the
counterexample; the snippet then stays with an earlier record of the
session).  The result is sorted by `(top_score desc, last_ts desc)` and
truncated to `RESULT_LIMIT = 200`. -/
theorem sessions_from_query_amended (results : List (ℚ × Record)) :
    (sessionsFromQuery results RESULT_LIMIT).length ≤ RESULT_LIMIT ∧
    (sessionsFromQuery results RESULT_LIMIT).Pairwise sessLe ∧
    (∀ s ∈ sessionsFromQuery results RESULT_LIMIT,
      s.hit_count =
        (results.filter (fun p => p.2.session_id = s.session_id)).length ∧
      (∀ p ∈ results.filter (fun p => p.2.session_id = s.session_id),
        p.1 ≤ s.top_score ∧ p.2.ts ≤ s.last_ts) ∧
      (∃ p ∈ results.filter (fun p => p.2.session_id = s.session_id),
        p.2.ts = s.last_ts) ∧
      (∃ p ∈ results.filter (fun p => p.2.session_id = s.session_id),
        p.1 = s.top_score ∧ s.source_path = p.2.source_path ∧
        (summarize p.2.text 160 ≠ [] → s.snippet = summarize p.2.text 160)) ∧
      (∃ p ∈ results.filter (fun p => p.2.session_id = s.session_id),
        s.snippet = summarize p.2.text 160)) := by
  have hq : sessionsFromQuery results RESULT_LIMIT =
      if RESULT_LIMIT < (List.insertionSort sessLe
          ((results.foldl (fun m p => addRecordToSession m p.1 p.2) []).map
            Prod.snd)).length then
        (List.insertionSort sessLe
          ((results.foldl (fun m p => addRecordToSession m p.1 p.2) []).map
            Prod.snd)).take RESULT_LIMIT
      else List.insertionSort sessLe
        ((results.foldl (fun m p => addRecordToSession m p.1 p.2) []).map
          Prod.snd) := rfl
  have hsorted : (List.insertionSort sessLe
      ((results.foldl (fun m p => addRecordToSession m p.1 p.2) []).map
        Prod.snd)).Pairwise sessLe :=
    List.sorted_insertionSort sessLe _
  refine ⟨?_, ?_, ?_⟩
  · rw [hq]
    split
    · simp only [List.length_take]
      omega
    · omega
  · rw [hq]
    split
    · exact List.Pairwise.sublist ( List.take_sublist _ _) hsorted
    · exact hsorted
  · intro s hs
    rw [hq] at hs
    have hs2 : s ∈ List.insertionSort sessLe
        ((results.foldl (fun m p => addRecordToSession m p.1 p.2) []).map
          Prod.snd) := by
      by_cases hsp : RESULT_LIMIT < (List.insertionSort sessLe
          ((results.foldl (fun m p => addRecordToSession m p.1 p.2) []).map
            Prod.snd)).length
      · rw [if_pos hsp] at hs
        exact List.Sublist.subset ( List.take_sublist _ _) hs
      · rw [if_neg hsp] at hs
        exact hs
    have hs3 : s ∈ ((results.foldl (fun m p => addRecordToSession m p.1 p.2)
        []).map Prod.snd) :=
      List.Perm.subset (List.perm_insertionSort sessLe _) hs2
    obtain ⟨pair, hpair, hsnd⟩ := List.mem_map.mp hs3
    have hkey : pair.2.session_id = pair.1 :=
      fold_keyInv results [] (by simp) pair hpair
    have hnd : (((results.foldl (fun m p => addRecordToSession m p.1 p.2)
        []).map Prod.fst).Nodup) := fold_nodupKeys results [] (by simp)
    have hfind : findSession
        (results.foldl (fun m p => addRecordToSession m p.1 p.2) [])
        s.session_id = some s := by
      have : (pair.1, pair.2) ∈
          results.foldl (fun m p => addRecordToSession m p.1 p.2) [] := by
        simpa using hpair
      have h2 := findSession_of_mem _ hnd this
      rw [← hsnd, hkey]
      exact h2
    rw [findSession_fold results [] s.session_id] at hfind
    rcases hfil : results.filter (fun p => p.2.session_id = s.session_id) with
      _ | ⟨p0, rest⟩
    · rw [hfil] at hfind
      simp [sessionFoldOpt, findSession] at hfind
    · rw [hfil] at hfind
      rw [show findSession [] s.session_id = none from rfl] at hfind
      rw [sessionFoldOpt, sessionFoldOpt_some] at hfind
      have hse : s = bumpFold rest
          (bumpSummary (initSummary p0.1 p0.2) p0.1 p0.2) := by
        injection hfind with h
        exact h.symm
      obtain ⟨_, hhit0, hlast0, htop0, hpath0, hsnip0⟩ :=
        initBump_fields p0.1 p0.2
      refine ⟨?_, ?_, ?_, ?_, ?_⟩
      · rw [hfil, hse, bumpFold_hit_count, hhit0]
        simp only [List.length_cons]
        omega
      · intro p hp
        rw [hfil] at hp
        rcases List.mem_cons.mp hp with rfl | hp'
        · constructor
          · rw [hse]
            exact le_of_eq_of_le htop0.symm (bumpFold_top_le rest _)
          · rw [hse]
            exact Nat.le_trans (Nat.le_of_eq hlast0.symm)
              (bumpFold_last_ts_le rest _)
        · exact ⟨hse ▸ bumpFold_top_mem rest _ p hp',
            hse ▸ bumpFold_last_ts_mem rest _ p hp'⟩
      · rw [hfil]
        rcases bumpFold_last_ts_eq rest
            (bumpSummary (initSummary p0.1 p0.2) p0.1 p0.2) with h | ⟨q, hq, hqe⟩
        · exact ⟨p0, List.mem_cons_self _ _, by rw [hse, h, hlast0]⟩
        · exact ⟨q, List.mem_cons_of_mem _ hq, by rw [hse, ← hqe]⟩
      · rw [hfil]
        rcases bumpFold_path_snippet rest
            (bumpSummary (initSummary p0.1 p0.2) p0.1 p0.2) with
          ⟨h1, h2, h3⟩ | ⟨q, hq, h1, h2, h3⟩
        · refine ⟨p0, List.mem_cons_self _ _, ?_, ?_, ?_⟩
          · rw [hse, h1, htop0]
          · rw [hse, h2, hpath0]
          · intro _
            rw [hse, h3, hsnip0]
        · exact ⟨q, List.mem_cons_of_mem _ hq, by rw [hse]; exact h1,
            by rw [hse]; exact h2, fun hne => by rw [hse]; exact h3 hne⟩
      · rw [hfil]
        rcases bumpFold_snippet_origin rest
            (bumpSummary (initSummary p0.1 p0.2) p0.1 p0.2) with h | ⟨q, hq, hqe⟩
        · exact ⟨p0, List.mem_cons_self _ _, by rw [hse, h, hsnip0]⟩
        · exact ⟨q, List.mem_cons_of_mem _ hq, by rw [hse]; exact hqe⟩

/-- First record of the C1 counterexample session: score 1, text "hello". -/
def cxRec1 : Record :=
  { doc_id := 1, session_id := "s".data, turn_id := 1, ts := 10,
    source := .Claude, source_path := "p1".data, project := "proj".data,
    role := "user".data, text := "hello".data }

/-- Second record of the C1 counterexample session: the top score 2 but an
empty text. -/
def cxRec2 : Record :=
  { doc_id := 2, session_id := "s".data, turn_id := 2, ts := 20,
    source := .Claude, source_path := "p2".data, project := "proj".data,
    role := "assistant".data, text := "".data }

/-- C1 counterexample: the unique top-scoring record (score 2, `cxRec2`)
has an empty text, so its summary is empty, and the produced summary keeps
the snippet "hello" of the lower-scoring record while taking `top_score`
and `source_path` from the top-scoring one — the claim's "snippet taken
from the top-scoring record" fails here. -/
theorem sessions_from_query_snippet_cx :
    (sessionsFromQuery [(1, cxRec1), (2, cxRec2)] RESULT_LIMIT).map
        (fun s => (s.top_score, s.snippet, s.source_path)) =
      [((2 : ℚ), "hello".data, "p2".data)] ∧
    summarize cxRec2.text 160 = [] ∧
    (1 : ℚ) < 2 ∧ "hello".data ≠ ([] : List Char) := by
  refine ⟨by decide, by decide, by decide, by decide⟩

/-- C1 witness data: first record of session "a". -/
def wRecordA1 : Record :=
  { doc_id := 1, session_id := "a".data, turn_id := 1, ts := 5,
    source := .Claude, source_path := "wp1".data, project := "proj".data,
    role := "user".data, text := "alpha".data }

/-- C1 witness data: second record of session "a". -/
def wRecordA2 : Record :=
  { doc_id := 2, session_id := "a".data, turn_id := 2, ts := 9,
    source := .Claude, source_path := "wp2".data, project := "proj".data,
    role := "assistant".data, text := "beta".data }

/-- C1 witness data: the single record of session "b". -/
def wRecordB : Record :=
  { doc_id := 3, session_id := "b".data, turn_id := 1, ts := 7,
    source := .Claude, source_path := "wp3".data, project := "proj".data,
    role := "user".data, text := "gamma".data }

/-- C1 witness data: three scored records over two sessions. -/
def wRecords : List (ℚ × Record) := [(1, wRecordA1), (3, wRecordA2), (2, wRecordB)]

/-- The summary `sessions_from_query` produces for session "a" of
`wRecords`. -/
def wSummaryA : SessionSummary :=
  { session_id := "a".data, project := "proj".data, source := .Claude,
    last_ts := 9, hit_count := 2, top_score := 3, snippet := "beta".data,
    source_path := "wp2".data }

theorem sessions_from_query_amended_witness :
    wSummaryA ∈ sessionsFromQuery wRecords RESULT_LIMIT ∧
    wSummaryA.hit_count =
      (wRecords.filter (fun p => p.2.session_id = wSummaryA.session_id)).length :=
  ⟨by decide,
    ((sessions_from_query_amended wRecords).2.2 wSummaryA (by decide)).1⟩

lemma keys_card_of_nodup (m : List (List Char × SessionSummary))
    (h : ((m.map Prod.fst).Nodup)) :
    (m.map Prod.fst).toFinset.card = m.length := by
  rw [List.toFinset_card_of_nodup h, List.length_map]

lemma addRecord_keys_toFinset (m : List (List Char × SessionSummary)) (score : ℚ)
    (r : Record) :
    ((addRecordToSession m score r).map Prod.fst).toFinset ⊆
      insert r.session_id (m.map Prod.fst).toFinset := by
  rw [addRecord_keys]
  by_cases hmem : r.session_id ∈ m.map Prod.fst
  · rw [if_pos hmem]
    exact Finset.subset_insert _ _
  · rw [if_neg hmem, List.toFinset_append]
    intro x hx
    rcases Finset.mem_union.mp hx with hx' | hx'
    · exact Finset.mem_insert_of_mem hx'
    · simp only [List.toFinset_cons, List.toFinset_nil, insert_emptyc_eq,
        Finset.mem_singleton] at hx'
      exact hx' ▸ Finset.mem_insert_self _ _

lemma recentLoop_length_le (source : Option SourceFilter)
    (project : Option (List Char)) (records : List Record) :
    ∀ m : List (List Char × SessionSummary), m.length < RECENT_SESSIONS_LIMIT →
      (recentLoop source project records m).length ≤ RECENT_SESSIONS_LIMIT := by
  induction records with
  | nil => intro m h; rw [recentLoop]; omega
  | cons r rest ih =>
    intro m h
    rw [recentLoop]
    by_cases h1 : sourcePasses source r.source = false
    · rw [if_pos h1]; exact ih m h
    · rw [if_neg h1]
      by_cases h2 : projectPasses project r.project = false
      · rw [if_pos h2]; exact ih m h
      · rw [if_neg h2]
        have hlen := addRecord_length_le m 0 r
        by_cases h3 : RECENT_SESSIONS_LIMIT ≤ (addRecordToSession m 0 r).length
        · simp only [h3, if_pos]
          omega
        · simp only [h3, if_neg, if_false]
          exact ih _ (by omega)

lemma recentLoop_no_break (source : Option SourceFilter)
    (project : Option (List Char)) (records : List Record) :
    ∀ m : List (List Char × SessionSummary), ((m.map Prod.fst).Nodup) →
      ((m.map Prod.fst).toFinset ∪
        ((records.filter (fun r => sourcePasses source r.source &&
          projectPasses project r.project)).map Record.session_id).toFinset).card <
        RECENT_SESSIONS_LIMIT →
      recentLoop source project records m =
        (records.filter (fun r => sourcePasses source r.source &&
          projectPasses project r.project)).foldl
            (fun m r => addRecordToSession m 0 r) m := by
  induction records with
  | nil => intro m _ _; rfl
  | cons r rest ih =>
    intro m hnd hcard
    rw [recentLoop]
    by_cases h1 : sourcePasses source r.source = false
    · rw [if_pos h1]
      rw [List.filter_cons_of_neg (by simp [h1])] at hcard ⊢
      exact ih m hnd hcard
    · rw [if_neg h1]
      by_cases h2 : projectPasses project r.project = false
      · rw [if_pos h2]
        rw [List.filter_cons_of_neg (by
          simp only [Bool.and_eq_true]
          rintro ⟨-, hpr⟩
          rw [h2] at hpr
          cases hpr)] at hcard ⊢
        exact ih m hnd hcard
      · rw [if_neg h2]
        have hpass : (sourcePasses source r.source &&
            projectPasses project r.project) = true := by
          rw [Bool.and_eq_true]
          constructor
          · cases hx : sourcePasses source r.source
            · exact absurd hx h1
            · rfl
          · cases hx : projectPasses project r.project
            · exact absurd hx h2
            · rfl
        have hstep : (r :: rest).filter (fun r => sourcePasses source r.source &&
            projectPasses project r.project) =
            r :: rest.filter (fun r => sourcePasses source r.source &&
              projectPasses project r.project) := List.filter_cons_of_pos hpass
        rw [hstep] at hcard ⊢
        have hnd' := addRecord_nodupKeys m 0 r hnd
        have hsub : ((addRecordToSession m 0 r).map Prod.fst).toFinset ∪
            ((rest.filter (fun r => sourcePasses source r.source &&
              projectPasses project r.project)).map Record.session_id).toFinset ⊆
            (m.map Prod.fst).toFinset ∪
            ((r :: rest.filter (fun r => sourcePasses source r.source &&
              projectPasses project r.project)).map Record.session_id).toFinset := by
          intro x hx
          rcases Finset.mem_union.mp hx with hx' | hx'
          · rcases Finset.mem_insert.mp (addRecord_keys_toFinset m 0 r hx') with
              rfl | hx''
            · apply Finset.mem_union_right
              simp only [List.map_cons, List.toFinset_cons]
              exact Finset.mem_insert_self _ _
            · exact Finset.mem_union_left _ hx''
          · apply Finset.mem_union_right
            simp only [List.map_cons, List.toFinset_cons]
            exact Finset.mem_insert_of_mem hx'
        have hcard' : ((addRecordToSession m 0 r).map Prod.fst).toFinset.card <
            RECENT_SESSIONS_LIMIT :=
          lt_of_le_of_lt (Finset.card_le_card (fun x hx =>
            hsub (Finset.mem_union_left _ hx))) hcard
        have hlen : (addRecordToSession m 0 r).length < RECENT_SESSIONS_LIMIT := by
          rw [← keys_card_of_nodup _ hnd']
          exact hcard'
        rw [show (let m' := addRecordToSession m 0 r;
            if RECENT_SESSIONS_LIMIT ≤ m'.length then m'
            else recentLoop source project rest m') =
          if RECENT_SESSIONS_LIMIT ≤ (addRecordToSession m 0 r).length then
            addRecordToSession m 0 r
          else recentLoop source project rest (addRecordToSession m 0 r) from rfl]
        rw [if_neg (by omega), List.foldl_cons]
        exact ih (addRecordToSession m 0 r) hnd'
          (lt_of_le_of_lt (Finset.card_le_card hsub) hcard)

/-- C2 (confirmed): the recent branch pulls up to
`RECENT_SESSIONS_LIMIT × RECENT_RECORDS_MULTIPLIER = 200 × 50` records,
applies the source and project filters while iterating, never yields more
than 200 sessions, sorts them newest `last_ts` first, and — whenever fewer
than 200 distinct sessions pass the filters — gives every session a
`hit_count` equal to its number of filtered records. -/
theorem sessions_from_recent_spec (records : List Record)
    (source : Option SourceFilter) (project : Option (List Char)) :
    recentRecordLimit = RECENT_SESSIONS_LIMIT * RECENT_RECORDS_MULTIPLIER ∧
    (sessionsFromRecent records source project).Pairwise tsLe ∧
    (sessionsFromRecent records source project).length ≤ RECENT_SESSIONS_LIMIT ∧
    (((records.filter (fun r => sourcePasses source r.source &&
        projectPasses project r.project)).map Record.session_id).toFinset.card <
        RECENT_SESSIONS_LIMIT →
      ∀ s ∈ sessionsFromRecent records source project,
        s.hit_count = ((records.filter (fun r => sourcePasses source r.source &&
          projectPasses project r.project)).filter
            (fun r => r.session_id = s.session_id)).length) := by
  refine ⟨by decide, List.sorted_insertionSort tsLe _, ?_, ?_⟩
  · rw [sessionsFromRecent,
      List.Perm.length_eq (List.perm_insertionSort tsLe _), List.length_map]
    exact recentLoop_length_le source project records [] (by decide)
  · intro hcard s hs
    have hloop : recentLoop source project records [] =
        (records.filter (fun r => sourcePasses source r.source &&
          projectPasses project r.project)).foldl
            (fun m r => addRecordToSession m 0 r) [] := by
      apply recentLoop_no_break source project records [] (by simp)
      simpa using hcard
    have hfold : (records.filter (fun r => sourcePasses source r.source &&
        projectPasses project r.project)).foldl
          (fun m r => addRecordToSession m 0 r) [] =
        ((records.filter (fun r => sourcePasses source r.source &&
          projectPasses project r.project)).map (fun r => ((0 : ℚ), r))).foldl
            (fun m p => addRecordToSession m p.1 p.2) [] := by
      rw [List.foldl_map]
    rw [sessionsFromRecent] at hs
    have hs2 : s ∈ (recentLoop source project records []).map Prod.snd :=
      List.Perm.subset (List.perm_insertionSort tsLe _) hs
    rw [hloop, hfold] at hs2
    set pairs := (records.filter (fun r => sourcePasses source r.source &&
      projectPasses project r.project)).map (fun r => ((0 : ℚ), r)) with hpairs
    obtain ⟨pair, hpair, hsnd⟩ := List.mem_map.mp hs2
    have hkey : pair.2.session_id = pair.1 :=
      fold_keyInv pairs [] (by simp) pair hpair
    have hnd : (((pairs.foldl (fun m p => addRecordToSession m p.1 p.2)
        []).map Prod.fst).Nodup) := fold_nodupKeys pairs [] (by simp)
    have hfind : findSession
        (pairs.foldl (fun m p => addRecordToSession m p.1 p.2) [])
        s.session_id = some s := by
      have hmem : (pair.1, pair.2) ∈
          pairs.foldl (fun m p => addRecordToSession m p.1 p.2) [] := by
        simpa using hpair
      have h2 := findSession_of_mem _ hnd hmem
      rw [← hsnd, hkey]
      exact h2
    rw [findSession_fold pairs [] s.session_id] at hfind
    have hfilpairs : pairs.filter (fun p => p.2.session_id = s.session_id) =
        ((records.filter (fun r => sourcePasses source r.source &&
          projectPasses project r.project)).filter
            (fun r => r.session_id = s.session_id)).map (fun r => ((0 : ℚ), r)) := by
      rw [hpairs, List.filter_map]
      rfl
    rw [hfilpairs] at hfind
    rcases hfil : (records.filter (fun r => sourcePasses source r.source &&
        projectPasses project r.project)).filter
          (fun r => r.session_id = s.session_id) with _ | ⟨r0, rest⟩
    · rw [hfil] at hfind
      simp [sessionFoldOpt, findSession] at hfind
    · rw [hfil] at hfind
      simp only [List.map_cons] at hfind
      rw [show findSession [] s.session_id = none from rfl] at hfind
      rw [sessionFoldOpt, sessionFoldOpt_some] at hfind
      have hse : s = bumpFold (rest.map (fun r => ((0 : ℚ), r)))
          (bumpSummary (initSummary 0 r0) 0 r0) := by
        injection hfind with h
        exact h.symm
      rw [hfil, hse, bumpFold_hit_count]
      have hhit : (bumpSummary (initSummary 0 r0) 0 r0).hit_count = 1 := rfl
      rw [hhit, List.length_map, List.length_cons]
      omega

/-- C2 witness data: five records over two sessions "x" and "y". -/
def rRecords : List Record :=
  [{ doc_id := 1, session_id := "x".data, turn_id := 1, ts := 1,
     source := .Claude, source_path := "q1".data, project := "proj".data,
     role := "user".data, text := "one".data },
   { doc_id := 2, session_id := "x".data, turn_id := 2, ts := 3,
     source := .Claude, source_path := "q2".data, project := "proj".data,
     role := "assistant".data, text := "two".data },
   { doc_id := 3, session_id := "x".data, turn_id := 3, ts := 2,
     source := .Claude, source_path := "q3".data, project := "proj".data,
     role := "user".data, text := "three".data },
   { doc_id := 4, session_id := "y".data, turn_id := 1, ts := 5,
     source := .Claude, source_path := "q4".data, project := "proj".data,
     role := "user".data, text := "four".data },
   { doc_id := 5, session_id := "y".data, turn_id := 2, ts := 4,
     source := .Claude, source_path := "q5".data, project := "proj".data,
     role := "assistant".data, text := "five".data }]

/-- The summary `sessions_from_recent` produces for session "y" of
`rRecords` (it sorts first: newest `last_ts`). -/
def rSummaryY : SessionSummary :=
  { session_id := "y".data, project := "proj".data, source := .Claude,
    last_ts := 5, hit_count := 2, top_score := 0, snippet := "five".data,
    source_path := "q5".data }

theorem sessions_from_recent_spec_witness :
    ((rRecords.filter (fun r => sourcePasses none r.source &&
        projectPasses none r.project)).map Record.session_id).toFinset.card <
      RECENT_SESSIONS_LIMIT ∧
    rSummaryY ∈ sessionsFromRecent rRecords none none ∧
    rSummaryY.hit_count = ((rRecords.filter (fun r => sourcePasses none r.source &&
      projectPasses none r.project)).filter
        (fun r => r.session_id = rSummaryY.session_id)).length :=
  ⟨by decide, by decide,
    (sessions_from_recent_spec rRecords none none).2.2.2 (by decide) rSummaryY
      (by decide)⟩

/-- `App::move_selection` (tui.rs), as a function of the results-list
length, the current selection and the delta: empty results clear the
selection; otherwise the new index is
`(selected.unwrap_or(0) + delta).clamp(0, len - 1)`. -/
def moveSelection (resultsLen : Nat) (selected : Option Nat) (delta : Int) :
    Option Nat :=
  if resultsLen = 0 then none
  else some ((max 0 (min ((selected.getD 0 : Int) + delta)
    ((resultsLen : Int) - 1))).toNat)

/-- C10 (confirmed): after `move_selection` with any delta, the selection
is `none` exactly when the results list is empty, and any selected index is
strictly below the list length. -/
theorem move_selection_invariant (len : Nat) (sel : Option Nat) (delta : Int) :
    (moveSelection len sel delta = none ↔ len = 0) ∧
    (∀ i, moveSelection len sel delta = some i → i < len) := by
  constructor
  · constructor
    · intro h
      by_contra hlen
      rw [moveSelection, if_neg hlen] at h
      simp at h
    · intro h
      rw [moveSelection, if_pos h]
  · intro i hi
    by_cases hlen : len = 0
    · rw [moveSelection, if_pos hlen] at hi
      simp at hi
    · rw [moveSelection, if_neg hlen] at hi
      simp only [Option.some.injEq] at hi
      have h0 : (0 : Int) ≤ max 0 (min ((sel.getD 0 : Int) + delta)
          ((len : Int) - 1)) := le_max_left _ _
      have h1 : max 0 (min ((sel.getD 0 : Int) + delta) ((len : Int) - 1)) ≤
          (len : Int) - 1 := by
        apply max_le
        · omega
        · exact min_le_right _ _
      omega

theorem move_selection_invariant_witness :
    moveSelection 3 (some 1) 5 = some 2 ∧ 2 < 3 :=
  ⟨by decide, (move_selection_invariant 3 (some 1) 5).2 2 (by decide)⟩

/-- `ModelChoice` (embed.rs); the `#[default]` variant is Gemma. -/
inductive ModelChoice
  | MiniLM
  | BGESmall
  | Nomic
  | Gemma
  | Potion
deriving DecidableEq, Repr

/-- The `#[default]` variant of `ModelChoice` (embed.rs). -/
def ModelChoice.defaultChoice : ModelChoice := .Gemma

/-- `ModelChoice::parse` (embed.rs).  Rust's `s.to_lowercase()` is
modelled by `toLowerStr` (the recognized tags are ASCII). -/
def ModelChoice.parse (s : List Char) : Except (List Char) ModelChoice :=
  if toLowerStr s = "minilm".data ∨ toLowerStr s = "mini".data ∨
      toLowerStr s = "fast".data then .ok .MiniLM
  else if toLowerStr s = "bge".data ∨ toLowerStr s = "bge-small".data ∨
      toLowerStr s = "bgesmall".data then .ok .BGESmall
  else if toLowerStr s = "nomic".data then .ok .Nomic
  else if toLowerStr s = "gemma".data ∨ toLowerStr s = "embeddinggemma".data ∨
      toLowerStr s = "default".data then .ok .Gemma
  else if toLowerStr s = "potion".data ∨ toLowerStr s = "potion8m".data ∨
      toLowerStr s = "potion-8m".data ∨ toLowerStr s = "potion-base-8m".data ∨
      toLowerStr s = "model2vec".data then .ok .Potion
  else .error ("unknown model '".data ++ s ++
    "', options: minilm, bge, nomic, gemma, potion".data)

/-- The tags `ModelChoice::parse` recognizes. -/
def knownModelTags : List (List Char) :=
  ["minilm".data, "mini".data, "fast".data, "bge".data, "bge-small".data,
   "bgesmall".data, "nomic".data, "gemma".data, "embeddinggemma".data,
   "default".data, "potion".data, "potion8m".data, "potion-8m".data,
   "potion-base-8m".data, "model2vec".data]

/-- `UserConfig` (config.rs); all fields optional, `#[derive(Default)]`
gives all-absent. -/
structure UserConfig where
  embeddings : Option Bool := none
  auto_index_on_search : Option Bool := none
  model : Option (List Char) := none
  scan_cache_ttl : Option Nat := none
  index_service_watch : Option Bool := none
  index_service_interval : Option Nat := none
  index_service_watch_interval : Option Nat := none
  index_service_label : Option (List Char) := none
  index_service_stdout : Option (List Char) := none
  index_service_stderr : Option (List Char) := none
  index_service_plist : Option (List Char) := none
deriving DecidableEq, Repr

/-- `UserConfig::default()`. -/
def UserConfig.defaultConfig : UserConfig := {}

/-- The `UserConfig::model` accessor (config.rs): the configured tag,
defaulting to "potion". -/
def UserConfig.modelOrDefault (c : UserConfig) : Option (List Char) :=
  some (c.model.getD "potion".data)

/-- `UserConfig::load` (config.rs).  The filesystem read and the TOML
parse are external collaborators; they are represented by whether
`config.toml` exists and by the outcome `toml::from_str` would produce:
a missing file yields the default configuration, everything else — the
read/parse result — propagates through `?` unchanged. -/
def UserConfig.load (fileExists : Bool)
    (parsed : Except (List Char) UserConfig) : Except (List Char) UserConfig :=
  if fileExists = false then .ok UserConfig.defaultConfig else parsed

/-- Modelled from the spec: `UserConfig::resolve_model` is called from
tui.rs (`config.resolve_model(None)`) but defined in a module that is not
under src/.  Spec §4.3: "Selection priority: explicit argument >
`MEMEX_MODEL` environment variable > config `model` field > default".
The config fallback goes through the source accessor
`UserConfig.modelOrDefault` (config.rs), whose default tag is "potion". -/
def UserConfig.resolveModel (c : UserConfig) (explicit : Option ModelChoice)
    (envModel : Option (List Char)) : Except (List Char) ModelChoice :=
  match explicit with
  | some m => .ok m
  | none =>
    match envModel with
    | some s => ModelChoice.parse s
    | none => ModelChoice.parse (c.modelOrDefault.getD "potion".data)

/-- C3 (confirmed, spec-modelled resolve_model): with no explicit model
argument and `MEMEX_MODEL` unset, selection falls back to the config
`model` field and otherwise to Potion; a set `MEMEX_MODEL` overrides the
config field (the result depends only on the environment tag). -/
theorem model_selection_priority (c : UserConfig) :
    (c.model = none →
      c.resolveModel none none = .ok ModelChoice.Potion) ∧
    (∀ tag, c.model = some tag →
      c.resolveModel none none = ModelChoice.parse tag) ∧
    (∀ s, c.resolveModel none (some s) = ModelChoice.parse s) := by
  refine ⟨?_, ?_, fun s => rfl⟩
  · intro h
    show ModelChoice.parse ((c.modelOrDefault).getD "potion".data) = _
    rw [UserConfig.modelOrDefault, h]
    rfl
  · intro tag h
    show ModelChoice.parse ((c.modelOrDefault).getD "potion".data) = _
    rw [UserConfig.modelOrDefault, h]
    rfl

theorem model_selection_priority_witness :
    UserConfig.defaultConfig.model = none ∧
    UserConfig.defaultConfig.resolveModel none none = .ok ModelChoice.Potion :=
  ⟨rfl, (model_selection_priority UserConfig.defaultConfig).1 rfl⟩

/-- C8 (confirmed): an unknown model tag makes `ModelChoice::parse` return
an error, and a failed TOML parse of an existing config.toml makes
`UserConfig::load` return that error; neither is silently defaulted (the
default configuration is produced only when the file is absent). -/
theorem config_invalid_errors :
    (∀ s : List Char, (∀ t ∈ knownModelTags, toLowerStr s ≠ t) →
      ModelChoice.parse s = .error ("unknown model '".data ++ s ++
        "', options: minilm, bge, nomic, gemma, potion".data)) ∧
    (∀ e, UserConfig.load true (.error e) = .error e) ∧
    (∀ c, UserConfig.load true (.ok c) = .ok c) := by
  refine ⟨?_, fun e => rfl, fun c => rfl⟩
  intro s h
  rw [ModelChoice.parse,
    if_neg (by
      rintro (h1 | h1 | h1) <;>
        exact h _ (by simp [knownModelTags]) h1),
    if_neg (by
      rintro (h1 | h1 | h1) <;>
        exact h _ (by simp [knownModelTags]) h1),
    if_neg (by
      intro h1
      exact h _ (by simp [knownModelTags]) h1),
    if_neg (by
      rintro (h1 | h1 | h1) <;>
        exact h _ (by simp [knownModelTags]) h1),
    if_neg (by
      rintro (h1 | h1 | h1 | h1 | h1) <;>
        exact h _ (by simp [knownModelTags]) h1)]

/-- `is_tool_role` (tui.rs). -/
def isToolRole (role : List Char) : Bool :=
  role = "tool_use".data || role = "tool_result".data

/-- Modelled from the spec: `SourceKind::label` lives in types.rs (not
under src/); the glossary labels the variants claude / codex. -/
def SourceKind.label : SourceKind → List Char
  | .Claude => "claude".data
  | .CodexSession => "codex".data
  | .CodexHistory => "codex history".data

/-- `format_ts` (tui.rs): zero renders "-", otherwise chrono's RFC 3339
rendering (external).  The exact rendering never matters to the claims;
the external formatter is modelled by the decimal representation. -/
def formatTs (ts : Nat) : List Char :=
  if ts = 0 then "-".data else (Nat.repr ts).data

/-- `PreviewMode` (tui.rs). -/
inductive PreviewMode
  | Matches
  | History
deriving DecidableEq, Repr

/-- The lines `append_record` (tui.rs) pushes for one record: the
timestamp/role line, the (possibly truncated) text or `<empty>`, and a
blank separator.  The highlight flag only affects styling. -/
def appendRecordLines (r : Record) (_highlight : Bool) : List (List Char) :=
  [formatTs r.ts ++ " ".data ++ (if r.role = [] then "unknown".data else r.role),
   (if displayedText r.text = [] then "<empty>".data else displayedText r.text),
   []]

/-- The record comparator of `build_detail_lines` (tui.rs):
`(turn_id, ts, doc_id)` ascending. -/
def recLe (a b : Record) : Prop :=
  a.turn_id < b.turn_id ∨ (a.turn_id = b.turn_id ∧
    (a.ts < b.ts ∨ (a.ts = b.ts ∧ a.doc_id ≤ b.doc_id)))

instance : DecidableRel recLe := fun _ _ => inferInstanceAs (Decidable (_ ∨ _))

instance : IsTotal Record recLe := by
  constructor
  intro a b
  rcases Nat.lt_trichotomy a.turn_id b.turn_id with h | h | h
  · exact Or.inl (Or.inl h)
  · rcases Nat.lt_trichotomy a.ts b.ts with h2 | h2 | h2
    · exact Or.inl (Or.inr ⟨h, Or.inl h2⟩)
    · rcases Nat.le_total a.doc_id b.doc_id with h3 | h3
      · exact Or.inl (Or.inr ⟨h, Or.inr ⟨h2, h3⟩⟩)
      · exact Or.inr (Or.inr ⟨h.symm, Or.inr ⟨h2.symm, h3⟩⟩)
    · exact Or.inr (Or.inr ⟨h.symm, Or.inl h2⟩)
  · exact Or.inr (Or.inl h)

instance : IsTrans Record recLe := by
  constructor
  rintro a b c (h1 | ⟨h1, h1'⟩) (h2 | ⟨h2, h2'⟩)
  · exact Or.inl (Nat.lt_trans h1 h2)
  · exact Or.inl (h2 ▸ h1)
  · exact Or.inl (h1 ▸ h2)
  · refine Or.inr ⟨h1.trans h2, ?_⟩
    rcases h1' with h3 | ⟨h3, h3'⟩ <;> rcases h2' with h4 | ⟨h4, h4'⟩
    · exact Or.inl (Nat.lt_trans h3 h4)
    · exact Or.inl (h4 ▸ h3)
    · exact Or.inl (h3 ▸ h4)
    · exact Or.inr ⟨h3.trans h4, Nat.le_trans h3' h4'⟩

/-- The display indices of the `Matches` arm of `build_detail_lines`
(tui.rs): positions of records that pass the tool filter and match some
matcher. -/
def indicesOf (records : List Record) (query : List Char) (show_tools : Bool) :
    List Nat :=
  (List.range records.length).filter (fun i =>
    match records[i]? with
    | some r => (show_tools || !isToolRole r.role) &&
        matchesAny r.text (buildMatcherTerms query)
    | none => false)

/-- One step of the window emission of the `Matches` arm (tui.rs): index
`i` contributes the record's lines unless it is tool-filtered or was
already emitted (`last_added`). -/
def emitWindowItem (show_tools : Bool) (records : List Record)
    (acc : List (List Char) × Option Nat) (i : Nat) :
    List (List Char) × Option Nat :=
  match records[i]? with
  | none => acc
  | some r =>
    if !show_tools && isToolRole r.role then acc
    else
      match acc.2 with
      | some last =>
        if i ≤ last then acc else (acc.1 ++ appendRecordLines r true, some i)
      | none => (acc.1 ++ appendRecordLines r true, some i)

/-- The window emission of the `Matches` arm (tui.rs): for every match
index, emit the `CONTEXT_AROUND_MATCH`-neighborhood with overlap
deduplication, followed by a blank line. -/
def emitWindows (records : List Record) (show_tools : Bool)
    (indices : List Nat) : List (List Char) :=
  (indices.foldl (fun acc idx =>
    ((((List.range' (idx - CONTEXT_AROUND_MATCH)
        ((min (idx + CONTEXT_AROUND_MATCH) (records.length - 1)) + 1 -
          (idx - CONTEXT_AROUND_MATCH))).foldl
        (emitWindowItem show_tools records) acc)).1 ++ [[]],
      ((List.range' (idx - CONTEXT_AROUND_MATCH)
        ((min (idx + CONTEXT_AROUND_MATCH) (records.length - 1)) + 1 -
          (idx - CONTEXT_AROUND_MATCH))).foldl
        (emitWindowItem show_tools records) acc).2)) ([], none)).1

/-- The `Matches` arm of `build_detail_lines` (tui.rs), after the records
have been sorted and the query trimmed. -/
def matchesModeLines (records : List Record) (query : List Char)
    (show_tools : Bool) : List (List Char) :=
  if query = [] then
    (records.reverse.take DETAIL_TAIL_LINES).reverse.foldl
      (fun acc r => acc ++ appendRecordLines r false) []
  else if buildMatcherTerms query = [] then ["no valid query terms".data]
  else if indicesOf records query show_tools = [] then
    (if records.any (fun r => matchesAny r.text (buildMatcherTerms query)) =
        false then
      ["no literal matches (search matched via tokenizer)".data]
    else if show_tools = false ∧ records.any (fun r =>
        matchesAny r.text (buildMatcherTerms query) && !isToolRole r.role) =
          false then
      ["matches only in tool messages (press t to show)".data]
    else ["no matches in session".data])
  else emitWindows records show_tools (indicesOf records query show_tools)

/-- The header line of `build_detail_lines` (tui.rs), with the span texts
concatenated. -/
def detailHeader (session : SessionSummary) : List Char :=
  "session ".data ++ session.session_id ++ "  ".data ++ session.project ++
    "  ".data ++ SourceKind.label session.source

/-- The fixed lines `build_detail_lines` (tui.rs) pushes before the mode
dispatch when the session has records: header, optional top-hit snippet,
and a blank line. -/
def detailPrefixLines (session : SessionSummary) : List (List Char) :=
  [detailHeader session] ++
    (if session.snippet = [] then [] else ["top hit: ".data ++ session.snippet]) ++
    [[]]

/-- `build_detail_lines` (tui.rs), with rendering styles erased: each line
is its text. -/
def buildDetailLines (session : SessionSummary) (records : List Record)
    (mode : PreviewMode) (query : List Char) (show_tools : Bool) :
    List (List Char) :=
  if List.insertionSort recLe records = [] then
    [detailHeader session] ++ ["no records in session".data]
  else
    detailPrefixLines session ++
      (match mode with
      | .Matches =>
        matchesModeLines (List.insertionSort recLe records) (trimChars query)
          show_tools
      | .History =>
        (List.insertionSort recLe records).foldl (fun acc r =>
          if !show_tools && isToolRole r.role then acc
          else acc ++ appendRecordLines r false) [])

/-- C7 (confirmed): in Matches mode with a non-empty query yielding valid
matchers, when no displayed record matches: if no record of the session
matches at all, the preview emits exactly the guidance line "no literal
matches (search matched via tokenizer)"; if some record matches but (with
`show_tools = false`) only tool-role records do, it emits exactly
"matches only in tool messages (press t to show)". -/
theorem preview_guidance_lines (session : SessionSummary)
    (records : List Record) (query : List Char) (show_tools : Bool)
    (hrec : records ≠ []) (hq : trimChars query ≠ [])
    (hm : buildMatcherTerms (trimChars query) ≠ []) :
    ((∀ r ∈ records,
        matchesAny r.text (buildMatcherTerms (trimChars query)) = false) →
      buildDetailLines session records .Matches query show_tools =
        detailPrefixLines session ++
          ["no literal matches (search matched via tokenizer)".data]) ∧
    (show_tools = false →
      (∃ r ∈ records,
        matchesAny r.text (buildMatcherTerms (trimChars query)) = true) →
      (∀ r ∈ records,
        matchesAny r.text (buildMatcherTerms (trimChars query)) = true →
          isToolRole r.role = true) →
      buildDetailLines session records .Matches query show_tools =
        detailPrefixLines session ++
          ["matches only in tool messages (press t to show)".data]) := by
  have hperm := List.perm_insertionSort recLe records
  have hsort_ne : List.insertionSort recLe records ≠ [] := by
    intro h
    rw [h] at hperm
    exact hrec (List.Perm.nil_eq hperm).symm
  constructor
  · intro hall
    have hall' : ∀ r ∈ List.insertionSort recLe records,
        matchesAny r.text (buildMatcherTerms (trimChars query)) = false :=
      fun r hr => hall r (List.Perm.subset hperm hr)
    have hany : (List.insertionSort recLe records).any (fun r =>
        matchesAny r.text (buildMatcherTerms (trimChars query))) = false := by
      rw [List.any_eq_false]
      intro r hr
      rw [hall' r hr]
      simp
    have hind : indicesOf (List.insertionSort recLe records) (trimChars query)
        show_tools = [] := by
      rw [indicesOf, List.filter_eq_nil_iff]
      intro i hi
      rcases hg : (List.insertionSort recLe records)[i]? with _ | r
      · simp
      · have hr : r ∈ List.insertionSort recLe records := by
          obtain ⟨hlt, heq⟩ := List.getElem?_eq_some_iff.mp hg
          exact heq ▸ List.getElem_mem hlt
        simp only [hall' r hr, Bool.and_false, not_false_eq_true,
          Bool.false_eq_true]
    rw [buildDetailLines, if_neg hsort_ne]
    show detailPrefixLines session ++
        matchesModeLines (List.insertionSort recLe records) (trimChars query)
          show_tools = _
    rw [matchesModeLines, if_neg hq, if_neg hm, if_pos hind, if_pos hany]
  · intro hst hex hall
    subst hst
    have hex' : ∃ r ∈ List.insertionSort recLe records,
        matchesAny r.text (buildMatcherTerms (trimChars query)) = true := by
      obtain ⟨r, hr, hmatch⟩ := hex
      exact ⟨r, (List.Perm.mem_iff hperm.symm).mp hr, hmatch⟩
    have hall' : ∀ r ∈ List.insertionSort recLe records,
        matchesAny r.text (buildMatcherTerms (trimChars query)) = true →
          isToolRole r.role = true :=
      fun r hr => hall r (List.Perm.subset hperm hr)
    have hind : indicesOf (List.insertionSort recLe records) (trimChars query)
        false = [] := by
      rw [indicesOf, List.filter_eq_nil_iff]
      intro i hi
      rcases hg : (List.insertionSort recLe records)[i]? with _ | r
      · simp
      · have hr : r ∈ List.insertionSort recLe records := by
          obtain ⟨hlt, heq⟩ := List.getElem?_eq_some_iff.mp hg
          exact heq ▸ List.getElem_mem hlt
        rcases hmr : matchesAny r.text (buildMatcherTerms (trimChars query)) with
          _ | _
        · simp [hmr]
        · simp [hmr, hall' r hr hmr]
    have hany : (List.insertionSort recLe records).any (fun r =>
        matchesAny r.text (buildMatcherTerms (trimChars query))) = true := by
      rw [List.any_eq_true]
      obtain ⟨r, hr, hmatch⟩ := hex'
      exact ⟨r, hr, hmatch⟩
    have hnt : (List.insertionSort recLe records).any (fun r =>
        matchesAny r.text (buildMatcherTerms (trimChars query)) &&
          !isToolRole r.role) = false := by
      rw [List.any_eq_false]
      intro r hr
      rcases hmr : matchesAny r.text (buildMatcherTerms (trimChars query)) with
        _ | _
      · simp [hmr]
      · simp [hmr, hall' r hr hmr]
    rw [buildDetailLines, if_neg hsort_ne]
    show detailPrefixLines session ++
        matchesModeLines (List.insertionSort recLe records) (trimChars query)
          false = _
    rw [matchesModeLines, if_neg hq, if_neg hm, if_pos hind,
      if_neg (by rw [hany]; simp), if_pos ⟨rfl, hnt⟩]

/-- C7 witness data: a session summary for the preview. -/
def pSession : SessionSummary :=
  { session_id := "s7".data, project := "proj".data, source := .Claude,
    last_ts := 3, hit_count := 2, top_score := 1, snippet := "hi there".data,
    source_path := "pp".data }

/-- C7 witness data: a non-tool record that does not literally match. -/
def pRecordUser : Record :=
  { doc_id := 10, session_id := "s7".data, turn_id := 1, ts := 2,
    source := .Claude, source_path := "pp".data, project := "proj".data,
    role := "user".data, text := "hi there".data }

/-- C7 witness data: a tool record containing the query term. -/
def pRecordTool : Record :=
  { doc_id := 11, session_id := "s7".data, turn_id := 2, ts := 3,
    source := .Claude, source_path := "pp".data, project := "proj".data,
    role := "tool_result".data, text := "needle output".data }

theorem preview_guidance_lines_witness :
    ([pRecordUser, pRecordTool] ≠ ([] : List Record)) ∧
    trimChars " needle ".data ≠ [] ∧
    buildMatcherTerms (trimChars " needle ".data) ≠ [] ∧
    buildDetailLines pSession [pRecordUser, pRecordTool] .Matches
        " needle ".data false =
      detailPrefixLines pSession ++
        ["matches only in tool messages (press t to show)".data] :=
  ⟨by decide, by decide, by decide,
    (preview_guidance_lines pSession [pRecordUser, pRecordTool]
        " needle ".data false (by decide) (by decide) (by decide)).2 rfl
      ⟨pRecordTool, by decide, by decide⟩ (by decide)⟩

theorem config_invalid_errors_witness :
    ModelChoice.parse "turbo".data = .error ("unknown model '".data ++
      "turbo".data ++ "', options: minilm, bge, nomic, gemma, potion".data) ∧
    UserConfig.load true (.error "bad toml".data) = .error "bad toml".data :=
  ⟨config_invalid_errors.1 "turbo".data (by decide),
    config_invalid_errors.2.1 "bad toml".data⟩

end Memex
